import Mathlib

/-! # A lock-striped chained hash table (`hash-table-v2.c`)

A shallow embedding of `src/hash-table-v2.c` and the verification of its
specification.

Modelling conventions.

* A key (`const char *`) is modelled by the content of the NUL-terminated
  string it points to. The table stores the caller's pointer; the caller is
  taken not to change or free the string while the table lives, so that a key
  is an immutable value. Keys are non-null by type, so the `assert(key != NULL)`
  of the source always passes.
* A `uint32_t` is a `Nat`; the program does no arithmetic on values, and the
  only arithmetic on a hash is the reduction modulo the capacity.
* `hash-table-base.h` is not part of the sources at hand. What the program
  takes from it, the constant `HASH_TABLE_CAPACITY` and the function
  `bernstein_hash`, is a parameter of every definition (`hash_table_base`).
* An `SLIST` is the list of its entries, head first. A pointer to an entry of a
  chain is the position of the entry in the chain; a pointer to a bucket is the
  index of the bucket.
* `calloc` is taken to succeed.
* A call runs alone (one thread): an operation that aborts, runs into undefined
  behaviour or blocks for ever yields a `Fault`.
-/

namespace HashTableV2

/-! ## Data model -/

/-- A key: the content of a NUL-terminated string. -/
abbrev Key := String

/-- What `hash-table-base.h` gives the program: the number of buckets, a
constant of the build, and the hash function. -/
structure hash_table_base where
  HASH_TABLE_CAPACITY : Nat
  bernstein_hash : Key → Nat

/-- One key/value pair of a chain (`struct list_entry`); the link to the next
entry is the tail of the list that holds the entry. -/
structure list_entry where
  key : Key
  value : Nat
  deriving DecidableEq, Repr

/-- A bucket (`struct hash_table_entry`): the head of its chain. -/
structure hash_table_entry where
  list_head : List list_entry
  deriving DecidableEq, Repr

/-- The state of a `pthread_mutex_t`. -/
inductive pthread_mutex_t where
  | uninitialised
  | unlocked
  | locked
  deriving DecidableEq, Repr

/-- The table (`struct hash_table_v2`): the buckets and one mutex per bucket. -/
structure hash_table_v2 where
  entries : List hash_table_entry
  bucket_mutexes : List pthread_mutex_t
  deriving DecidableEq, Repr

/-- The ways in which a call does not return. -/
inductive Fault where
  /-- An `assert` failed: the process aborts. -/
  | assertion_failure
  /-- Undefined behaviour: an array access out of bounds, a remainder by zero,
  a mutex locked before it is initialised or unlocked while it is not held. -/
  | undefined_behaviour
  /-- The calling thread waits for a mutex that is never released. -/
  | deadlock
  deriving DecidableEq, Repr

deriving instance DecidableEq for Except

/-! ## Library functions -/

/-- The comparison loop of `strcmp`: the sign of the difference at the first
position where the two strings differ, the end of a string counting as the
NUL byte, which is below every character of a string. -/
def strcmp_chars : List Char → List Char → Int
  | [], [] => 0
  | [], _ :: _ => -1
  | _ :: _, [] => 1
  | c1 :: s1, c2 :: s2 =>
    if c1 = c2 then strcmp_chars s1 s2
    else if c1.toNat < c2.toNat then -1 else 1

/-- The function `strcmp` of the C library: zero when the two strings are
equal, negative or positive as the first is below or above the second. -/
def strcmp (s1 s2 : Key) : Int :=
  strcmp_chars s1.data s2.data

/-- `pthread_mutex_init(&hash_table->bucket_mutexes[index], NULL)`. -/
def pthread_mutex_init (hash_table : hash_table_v2) (index : Nat) : hash_table_v2 :=
  { hash_table with
    bucket_mutexes := hash_table.bucket_mutexes.set index pthread_mutex_t.unlocked }

/-- `pthread_mutex_lock(&hash_table->bucket_mutexes[index])`: takes a free
mutex; on a mutex that is held the call does not return. -/
def pthread_mutex_lock (hash_table : hash_table_v2) (index : Nat) :
    Except Fault hash_table_v2 :=
  match hash_table.bucket_mutexes[index]? with
  | some pthread_mutex_t.unlocked =>
    Except.ok { hash_table with
      bucket_mutexes := hash_table.bucket_mutexes.set index pthread_mutex_t.locked }
  | some pthread_mutex_t.locked => Except.error Fault.deadlock
  | _ => Except.error Fault.undefined_behaviour

/-- `pthread_mutex_unlock(&hash_table->bucket_mutexes[index])`: releases a
mutex that is held. -/
def pthread_mutex_unlock (hash_table : hash_table_v2) (index : Nat) :
    Except Fault hash_table_v2 :=
  match hash_table.bucket_mutexes[index]? with
  | some pthread_mutex_t.locked =>
    Except.ok { hash_table with
      bucket_mutexes := hash_table.bucket_mutexes.set index pthread_mutex_t.unlocked }
  | _ => Except.error Fault.undefined_behaviour

/-! ## The program -/

/-- `SLIST_INIT(&hash_table->entries[index].list_head)`. -/
def SLIST_INIT (hash_table : hash_table_v2) (index : Nat) : hash_table_v2 :=
  { hash_table with entries := hash_table.entries.set index { list_head := [] } }

/-- `hash_table_v2_create`: `calloc` gives `HASH_TABLE_CAPACITY` zeroed buckets
and as many mutexes that are not yet initialised; the loop then empties every
chain and initialises every mutex. The function has no parameter. -/
def hash_table_v2_create (base : hash_table_base) : hash_table_v2 :=
  let hash_table : hash_table_v2 :=
    { entries := List.replicate base.HASH_TABLE_CAPACITY { list_head := [] }
      bucket_mutexes :=
        List.replicate base.HASH_TABLE_CAPACITY pthread_mutex_t.uninitialised }
  (List.range base.HASH_TABLE_CAPACITY).foldl
    (fun hash_table i => pthread_mutex_init (SLIST_INIT hash_table i) i) hash_table

/-- `get_hash_table_entry`: the index `bernstein_hash(key) % HASH_TABLE_CAPACITY`
of the bucket of a key; the bucket `&hash_table->entries[*index]` it returns is
identified by that index. -/
def get_hash_table_entry (base : hash_table_base) (hash_table : hash_table_v2)
    (key : Key) : Except Fault Nat :=
  if base.HASH_TABLE_CAPACITY = 0 then Except.error Fault.undefined_behaviour
  else
    let index := base.bernstein_hash key % base.HASH_TABLE_CAPACITY
    if index < hash_table.entries.length then Except.ok index
    else Except.error Fault.undefined_behaviour

/-- `get_list_entry`: the first entry of the chain whose key compares equal to
`key`, as its position in the chain, or `none` (`NULL`). -/
def get_list_entry : List list_entry → Key → Option Nat
  | [], _ => none
  | entry :: rest, key =>
    if strcmp entry.key key = 0 then some 0
    else (get_list_entry rest key).map (· + 1)

/-- The chain of the bucket at `index` (`&hash_table_entry->list_head`). -/
def read_list_head (hash_table : hash_table_v2) (index : Nat) :
    Except Fault (List list_entry) :=
  match hash_table.entries[index]? with
  | some hash_table_entry => Except.ok hash_table_entry.list_head
  | none => Except.error Fault.undefined_behaviour

/-- The table with the chain of the bucket at `index` replaced. -/
def write_list_head (hash_table : hash_table_v2) (index : Nat)
    (list_head : List list_entry) : hash_table_v2 :=
  { hash_table with entries := hash_table.entries.set index { list_head := list_head } }

/-- `list_entry->value` for the entry at position `p` of a chain. -/
def read_value (list_head : List list_entry) (p : Nat) : Except Fault Nat :=
  match list_head[p]? with
  | some list_entry => Except.ok list_entry.value
  | none => Except.error Fault.undefined_behaviour

/-- `list_entry->value = value` for the entry at position `p` of a chain. -/
def write_value : List list_entry → Nat → Nat → List list_entry
  | [], _, _ => []
  | entry :: rest, 0, value => { entry with value := value } :: rest
  | entry :: rest, p + 1, value => entry :: write_value rest p value

/-- `hash_table_v2_contains`: the result and the table after the call. -/
def hash_table_v2_contains (base : hash_table_base) (hash_table : hash_table_v2)
    (key : Key) : Except Fault (Bool × hash_table_v2) := do
  let index ← get_hash_table_entry base hash_table key
  let hash_table ← pthread_mutex_lock hash_table index
  let list_head ← read_list_head hash_table index
  let list_entry := get_list_entry list_head key
  let result := list_entry.isSome
  let hash_table ← pthread_mutex_unlock hash_table index
  pure (result, hash_table)

/-- `hash_table_v2_add_entry`: the table after the call. -/
def hash_table_v2_add_entry (base : hash_table_base) (hash_table : hash_table_v2)
    (key : Key) (value : Nat) : Except Fault hash_table_v2 := do
  let index ← get_hash_table_entry base hash_table key
  let hash_table ← pthread_mutex_lock hash_table index
  let list_head ← read_list_head hash_table index
  match get_list_entry list_head key with
  | some p =>
    -- Update the value if it already exists
    let hash_table := write_list_head hash_table index (write_value list_head p value)
    pthread_mutex_unlock hash_table index
  | none =>
    let list_entry : list_entry := { key := key, value := value }
    -- SLIST_INSERT_HEAD
    let hash_table := write_list_head hash_table index (list_entry :: list_head)
    pthread_mutex_unlock hash_table index

/-- `hash_table_v2_get_value`: the value and the table after the call. -/
def hash_table_v2_get_value (base : hash_table_base) (hash_table : hash_table_v2)
    (key : Key) : Except Fault (Nat × hash_table_v2) := do
  let index ← get_hash_table_entry base hash_table key
  let hash_table ← pthread_mutex_lock hash_table index
  let list_head ← read_list_head hash_table index
  match get_list_entry list_head key with
  | none => Except.error Fault.assertion_failure
  | some p =>
    let value ← read_value list_head p
    let hash_table ← pthread_mutex_unlock hash_table index
    pure (value, hash_table)

/-! ## Vocabulary of the statements and proofs -/

/-- The index of the bucket of a key. -/
def bucket_index (base : hash_table_base) (key : Key) : Nat :=
  base.bernstein_hash key % base.HASH_TABLE_CAPACITY

/-- The chain of bucket `i`, empty when there is no such bucket. -/
def chain (hash_table : hash_table_v2) (i : Nat) : List list_entry :=
  match hash_table.entries[i]? with
  | some hash_table_entry => hash_table_entry.list_head
  | none => []

/-- The state of a table between two calls: one bucket and one mutex per index
below the capacity, and no mutex held. -/
def Ready (base : hash_table_base) (hash_table : hash_table_v2) : Prop :=
  hash_table.entries.length = base.HASH_TABLE_CAPACITY ∧
  hash_table.bucket_mutexes =
    List.replicate base.HASH_TABLE_CAPACITY pthread_mutex_t.unlocked

/-- The value of the first entry of a chain with the given key. -/
def find_value : List list_entry → Key → Option Nat
  | [], _ => none
  | entry :: rest, key => if entry.key = key then some entry.value else find_value rest key

/-- The chain with the value of its first entry with the given key replaced. -/
def update_chain : List list_entry → Key → Nat → List list_entry
  | [], _, _ => []
  | entry :: rest, key, value =>
    if entry.key = key then { entry with value := value } :: rest
    else entry :: update_chain rest key value

/-- The chain of a bucket after a put of `key` and `value` in it. -/
def put_chain (list_head : List list_entry) (key : Key) (value : Nat) : List list_entry :=
  if (find_value list_head key).isSome then update_chain list_head key value
  else { key := key, value := value } :: list_head

/-- The value the table holds for a key: the first entry with that key in the
chain of the bucket of the key. -/
def lookup (base : hash_table_base) (hash_table : hash_table_v2) (key : Key) : Option Nat :=
  find_value (chain hash_table (bucket_index base key)) key

/-- A sequence of calls of `hash_table_v2_add_entry`, one per pair of the list,
in the order of the list. -/
def put_all (base : hash_table_base) :
    hash_table_v2 → List (Key × Nat) → Except Fault hash_table_v2
  | hash_table, [] => Except.ok hash_table
  | hash_table, (key, value) :: rest =>
    match hash_table_v2_add_entry base hash_table key value with
    | Except.ok hash_table => put_all base hash_table rest
    | Except.error fault => Except.error fault

/-- The value of the last pair of a sequence of puts with the given key. -/
def last_value : List (Key × Nat) → Key → Option Nat
  | [], _ => none
  | (a, v) :: rest, key =>
    match last_value rest key with
    | some w => some w
    | none => if a = key then some v else none

/-- The tables a program can hold: the one `hash_table_v2_create` returns and
those left by a call of `hash_table_v2_add_entry`, `hash_table_v2_contains` or
`hash_table_v2_get_value` that returns, on a table it can hold. -/
inductive Reachable (base : hash_table_base) : hash_table_v2 → Prop
  | create : Reachable base (hash_table_v2_create base)
  | add_entry (hash_table after : hash_table_v2) (key : Key) (value : Nat) :
    Reachable base hash_table →
    hash_table_v2_add_entry base hash_table key value = Except.ok after →
    Reachable base after
  | contains (hash_table after : hash_table_v2) (key : Key) (result : Bool) :
    Reachable base hash_table →
    hash_table_v2_contains base hash_table key = Except.ok (result, after) →
    Reachable base after
  | get_value (hash_table after : hash_table_v2) (key : Key) (value : Nat) :
    Reachable base hash_table →
    hash_table_v2_get_value base hash_table key = Except.ok (value, after) →
    Reachable base after

/-- The entries of all the chains of a table, bucket after bucket. -/
def all_entries (hash_table : hash_table_v2) : List list_entry :=
  hash_table.entries.foldr (fun hash_table_entry rest => hash_table_entry.list_head ++ rest) []

/-- The keys of all the entries of a table, one per entry. -/
def table_keys (hash_table : hash_table_v2) : List Key :=
  (all_entries hash_table).map (fun list_entry => list_entry.key)

/-- No two entries of the table, in whatever buckets, have equal keys. -/
def KeyUnique (hash_table : hash_table_v2) : Prop :=
  (table_keys hash_table).Nodup

/-- Every entry in the chain of bucket `i` has a key whose hash, reduced modulo
the capacity, is `i`. -/
def Placement (base : hash_table_base) (hash_table : hash_table_v2) : Prop :=
  ∀ (i : Nat) (hash_table_entry : hash_table_entry),
    hash_table.entries[i]? = some hash_table_entry →
    ∀ list_entry ∈ hash_table_entry.list_head,
      base.bernstein_hash list_entry.key % base.HASH_TABLE_CAPACITY = i

/-- No chain holds two entries with equal keys. -/
def ChainUnique (hash_table : hash_table_v2) : Prop :=
  ∀ (i : Nat) (key : Key),
    ((chain hash_table i).map (fun list_entry => list_entry.key)).count key ≤ 1

/-! ## The calls with their lock events

The three operations once more, statement for statement, on a table that
carries the record of what the call did so far: every `pthread_mutex_lock` and
`pthread_mutex_unlock` that returns and every scan of a chain by
`get_list_entry` is recorded in the order of the program. -/

/-- What a call does with a mutex or a chain. -/
inductive Event where
  /-- `pthread_mutex_lock` on the mutex at `index` returned. -/
  | lock (index : Nat)
  /-- `get_list_entry` went through the chain of the bucket at `index`. -/
  | scan (index : Nat)
  /-- `pthread_mutex_unlock` on the mutex at `index` returned. -/
  | unlock (index : Nat)
  deriving DecidableEq, Repr

/-- A call in progress: the table and the events of the call so far. -/
structure Run where
  hash_table : hash_table_v2
  events : List Event
  deriving DecidableEq, Repr

/-- `pthread_mutex_lock`, recorded. -/
def lock_event (run : Run) (index : Nat) : Except Fault Run :=
  match pthread_mutex_lock run.hash_table index with
  | Except.ok hash_table =>
    Except.ok { hash_table := hash_table, events := run.events ++ [Event.lock index] }
  | Except.error fault => Except.error fault

/-- `pthread_mutex_unlock`, recorded. -/
def unlock_event (run : Run) (index : Nat) : Except Fault Run :=
  match pthread_mutex_unlock run.hash_table index with
  | Except.ok hash_table =>
    Except.ok { hash_table := hash_table, events := run.events ++ [Event.unlock index] }
  | Except.error fault => Except.error fault

/-- `get_list_entry` on the chain of the bucket at `index`, recorded. -/
def scan_event (run : Run) (index : Nat) (list_head : List list_entry) (key : Key) :
    Option Nat × Run :=
  (get_list_entry list_head key, { run with events := run.events ++ [Event.scan index] })

/-- `hash_table_v2_contains` with its events. -/
def hash_table_v2_contains_events (base : hash_table_base) (hash_table : hash_table_v2)
    (key : Key) : Except Fault (Bool × Run) := do
  let run : Run := { hash_table := hash_table, events := [] }
  let index ← get_hash_table_entry base run.hash_table key
  let run ← lock_event run index
  let list_head ← read_list_head run.hash_table index
  let (found, run) := scan_event run index list_head key
  let result := found.isSome
  let run ← unlock_event run index
  pure (result, run)

/-- `hash_table_v2_add_entry` with its events. -/
def hash_table_v2_add_entry_events (base : hash_table_base) (hash_table : hash_table_v2)
    (key : Key) (value : Nat) : Except Fault Run := do
  let run : Run := { hash_table := hash_table, events := [] }
  let index ← get_hash_table_entry base run.hash_table key
  let run ← lock_event run index
  let list_head ← read_list_head run.hash_table index
  let (found, run) := scan_event run index list_head key
  match found with
  | some p =>
    -- Update the value if it already exists
    let run := { run with
      hash_table := write_list_head run.hash_table index (write_value list_head p value) }
    unlock_event run index
  | none =>
    let list_entry : list_entry := { key := key, value := value }
    -- SLIST_INSERT_HEAD
    let run := { run with
      hash_table := write_list_head run.hash_table index (list_entry :: list_head) }
    unlock_event run index

/-- `hash_table_v2_get_value` with its events. -/
def hash_table_v2_get_value_events (base : hash_table_base) (hash_table : hash_table_v2)
    (key : Key) : Except Fault (Nat × Run) := do
  let run : Run := { hash_table := hash_table, events := [] }
  let index ← get_hash_table_entry base run.hash_table key
  let run ← lock_event run index
  let list_head ← read_list_head run.hash_table index
  let (found, run) := scan_event run index list_head key
  match found with
  | none => Except.error Fault.assertion_failure
  | some p =>
    let value ← read_value list_head p
    let run ← unlock_event run index
    pure (value, run)

/-- The mutexes a call holds after one more event, the last one taken first. -/
def hold (held : List Nat) : Event → List Nat
  | Event.lock index => index :: held
  | Event.scan _ => held
  | Event.unlock index => held.erase index

/-- The mutexes a call holds after a sequence of events. -/
def locks_held (events : List Event) : List Nat :=
  events.foldl hold []

/-- The lock discipline of a call that returned, for the bucket at `index` and
the table `before` the call: the call took the mutex of that bucket, then went
through the chain, then released the mutex, and did nothing else with a mutex
or a chain; at no point of the call were two mutexes held; none is held at the
end; and the mutexes of the table are as they were before the call. -/
def Discipline (index : Nat) (before : hash_table_v2) (run : Run) : Prop :=
  run.events = [Event.lock index, Event.scan index, Event.unlock index] ∧
  (∀ n, (locks_held (run.events.take n)).length ≤ 1) ∧
  locks_held run.events = [] ∧
  run.hash_table.bucket_mutexes = before.bucket_mutexes

/-- A call for `key` gets through on the table: there is a bucket at the index
of the key, and the mutex of that bucket is initialised and free. -/
def Callable (base : hash_table_base) (hash_table : hash_table_v2) (key : Key) : Prop :=
  0 < base.HASH_TABLE_CAPACITY ∧
  bucket_index base key < hash_table.entries.length ∧
  hash_table.bucket_mutexes[bucket_index base key]? = some pthread_mutex_t.unlocked

/-! ## Tables for the examples -/

/-- A build with one bucket: all keys collide. -/
def one_bucket : hash_table_base :=
  { HASH_TABLE_CAPACITY := 1, bernstein_hash := fun _ => 0 }

/-- A build with three buckets and the length of the key as its hash. -/
def three_buckets : hash_table_base :=
  { HASH_TABLE_CAPACITY := 3, bernstein_hash := String.length }

/-- The one-bucket table after `put("a", 1)` and `put("b", 2)`. -/
def table_b_a : hash_table_v2 :=
  { entries := [{ list_head := [{ key := "b", value := 2 }, { key := "a", value := 1 }] }]
    bucket_mutexes := [pthread_mutex_t.unlocked] }

/-- The three-bucket table after `put("a", 1)` and `put("bb", 2)`. -/
def table_a_bb : hash_table_v2 :=
  { entries := [{ list_head := [] }, { list_head := [{ key := "a", value := 1 }] },
      { list_head := [{ key := "bb", value := 2 }] }]
    bucket_mutexes :=
      [pthread_mutex_t.unlocked, pthread_mutex_t.unlocked, pthread_mutex_t.unlocked] }

/-- The three-bucket table after `put("a", 1)`, `put("bb", 2)` and
`put("cc", 3)`. -/
def table_a_bb_cc : hash_table_v2 :=
  { entries := [{ list_head := [] }, { list_head := [{ key := "a", value := 1 }] },
      { list_head := [{ key := "cc", value := 3 }, { key := "bb", value := 2 }] }]
    bucket_mutexes :=
      [pthread_mutex_t.unlocked, pthread_mutex_t.unlocked, pthread_mutex_t.unlocked] }

/-- The one-bucket table after `put("a", 1)`, `put("b", 2)` and `put("a", 5)`. -/
def table_b_a5 : hash_table_v2 :=
  { entries := [{ list_head := [{ key := "b", value := 2 }, { key := "a", value := 5 }] }]
    bucket_mutexes := [pthread_mutex_t.unlocked] }

/-- The one-bucket table after `put("a", 1)`, `put("b", 2)` and `put("c", 3)`. -/
def table_c_b_a : hash_table_v2 :=
  { entries := [{ list_head := [{ key := "c", value := 3 }, { key := "b", value := 2 },
      { key := "a", value := 1 }] }]
    bucket_mutexes := [pthread_mutex_t.unlocked] }

/-! ## Lemmas -/

/-! ### The library and the chain scan -/

theorem strcmp_chars_eq_zero (s1 : List Char) :
    ∀ s2 : List Char, strcmp_chars s1 s2 = 0 ↔ s1 = s2 := by
  induction s1 with
  | nil => intro s2; cases s2 <;> simp [strcmp_chars]
  | cons c1 s1 ih =>
    intro s2
    cases s2 with
    | nil => simp [strcmp_chars]
    | cons c2 s2 =>
      by_cases hc : c1 = c2
      · simp [strcmp_chars, hc, ih]
      · by_cases hlt : c1.toNat < c2.toNat <;> simp [strcmp_chars, hc, hlt]

theorem strcmp_eq_zero (s1 s2 : Key) : strcmp s1 s2 = 0 ↔ s1 = s2 := by
  unfold strcmp
  rw [strcmp_chars_eq_zero]
  constructor
  · intro h
    exact String.ext h
  · intro h
    rw [h]

theorem get_list_entry_none (list_head : List list_entry) (key : Key) :
    get_list_entry list_head key = none ↔ find_value list_head key = none := by
  induction list_head with
  | nil => simp [get_list_entry, find_value]
  | cons entry rest ih =>
    by_cases h : entry.key = key
    · simp [get_list_entry, find_value, strcmp_eq_zero, h]
    · simp [get_list_entry, find_value, strcmp_eq_zero, h, ih]

theorem get_list_entry_some (list_head : List list_entry) (key : Key) :
    ∀ p : Nat, get_list_entry list_head key = some p →
      ∃ v, find_value list_head key = some v ∧ read_value list_head p = Except.ok v ∧
        ∀ value, write_value list_head p value = update_chain list_head key value := by
  induction list_head with
  | nil => intro p h; simp [get_list_entry] at h
  | cons entry rest ih =>
    intro p h
    by_cases hk : entry.key = key
    · simp [get_list_entry, strcmp_eq_zero, hk] at h
      subst h
      refine ⟨entry.value, ?_, ?_, ?_⟩
      · simp [find_value, hk]
      · simp [read_value]
      · intro value
        simp [write_value, update_chain, hk]
    · simp [get_list_entry, strcmp_eq_zero, hk] at h
      obtain ⟨q, hq, rfl⟩ := h
      obtain ⟨v, h1, h2, h3⟩ := ih q hq
      refine ⟨v, ?_, ?_, ?_⟩
      · simp [find_value, hk, h1]
      · simpa [read_value] using h2
      · intro value
        simp [write_value, update_chain, hk, h3]


/-! ### The three operations on a table between two calls -/

theorem mutex_set_set (n i : Nat) :
    ((List.replicate n pthread_mutex_t.unlocked).set i pthread_mutex_t.locked).set i
      pthread_mutex_t.unlocked = List.replicate n pthread_mutex_t.unlocked := by
  apply List.ext_getElem?
  intro j
  by_cases hj : i = j
  · subst hj
    by_cases hi : i < n
    · simp [hi]
    · simp [hi]
  · simp [hj]

theorem chain_write_list_head (hash_table : hash_table_v2) (i j : Nat)
    (list_head : List list_entry) (hi : i < hash_table.entries.length) :
    chain (write_list_head hash_table i list_head) j =
      if j = i then list_head else chain hash_table j := by
  by_cases hj : j = i
  · subst hj
    simp [chain, write_list_head, hi]
  · have hj2 : ¬ i = j := fun h => hj h.symm
    simp [chain, write_list_head, hj, hj2]

theorem hash_table_v2_contains_eq (base : hash_table_base) (hash_table : hash_table_v2)
    (key : Key) (hr : Ready base hash_table) (hc : 0 < base.HASH_TABLE_CAPACITY) :
    hash_table_v2_contains base hash_table key =
      Except.ok ((find_value (chain hash_table (bucket_index base key)) key).isSome,
        hash_table) := by
  obtain ⟨hl, hm⟩ := hr
  have hi : base.bernstein_hash key % base.HASH_TABLE_CAPACITY < base.HASH_TABLE_CAPACITY :=
    Nat.mod_lt _ hc
  have hne : base.HASH_TABLE_CAPACITY ≠ 0 := Nat.pos_iff_ne_zero.mp hc
  cases hash_table with
  | mk entries bucket_mutexes =>
    simp only at hl hm
    subst hm
    have hi2 : base.bernstein_hash key % base.HASH_TABLE_CAPACITY < entries.length := by
      rw [hl]; exact hi
    simp [hash_table_v2_contains, get_hash_table_entry, pthread_mutex_lock,
      pthread_mutex_unlock, read_list_head, bind, Except.bind, pure, Except.pure, hne, hi, hi2,
      mutex_set_set, chain, bucket_index]
    cases hg : get_list_entry
        entries[base.bernstein_hash key % base.HASH_TABLE_CAPACITY].list_head key with
    | none => simp [(get_list_entry_none _ _).mp hg]
    | some p =>
      obtain ⟨v, hv, -, -⟩ := get_list_entry_some _ _ p hg
      simp [hv]

theorem hash_table_v2_add_entry_eq (base : hash_table_base) (hash_table : hash_table_v2)
    (key : Key) (value : Nat) (hr : Ready base hash_table)
    (hc : 0 < base.HASH_TABLE_CAPACITY) :
    hash_table_v2_add_entry base hash_table key value =
      Except.ok (write_list_head hash_table (bucket_index base key)
        (put_chain (chain hash_table (bucket_index base key)) key value)) := by
  obtain ⟨hl, hm⟩ := hr
  have hi : base.bernstein_hash key % base.HASH_TABLE_CAPACITY < base.HASH_TABLE_CAPACITY :=
    Nat.mod_lt _ hc
  have hne : base.HASH_TABLE_CAPACITY ≠ 0 := Nat.pos_iff_ne_zero.mp hc
  cases hash_table with
  | mk entries bucket_mutexes =>
    simp only at hl hm
    subst hm
    have hi2 : base.bernstein_hash key % base.HASH_TABLE_CAPACITY < entries.length := by
      rw [hl]; exact hi
    cases hg : get_list_entry
        entries[base.bernstein_hash key % base.HASH_TABLE_CAPACITY].list_head key with
    | none =>
      have hf := (get_list_entry_none _ _).mp hg
      simp [hash_table_v2_add_entry, get_hash_table_entry, pthread_mutex_lock,
        pthread_mutex_unlock, read_list_head, write_list_head, bind, Except.bind, hne, hi,
        hi2, mutex_set_set, chain, bucket_index, put_chain, hg, hf]
    | some p =>
      obtain ⟨v, hv, -, hw⟩ := get_list_entry_some _ _ p hg
      simp [hash_table_v2_add_entry, get_hash_table_entry, pthread_mutex_lock,
        pthread_mutex_unlock, read_list_head, write_list_head, bind, Except.bind, hne, hi,
        hi2, mutex_set_set, chain, bucket_index, put_chain, hg, hv, hw]

theorem hash_table_v2_get_value_eq (base : hash_table_base) (hash_table : hash_table_v2)
    (key : Key) (hr : Ready base hash_table) (hc : 0 < base.HASH_TABLE_CAPACITY) :
    hash_table_v2_get_value base hash_table key =
      match find_value (chain hash_table (bucket_index base key)) key with
      | some v => Except.ok (v, hash_table)
      | none => Except.error Fault.assertion_failure := by
  obtain ⟨hl, hm⟩ := hr
  have hi : base.bernstein_hash key % base.HASH_TABLE_CAPACITY < base.HASH_TABLE_CAPACITY :=
    Nat.mod_lt _ hc
  have hne : base.HASH_TABLE_CAPACITY ≠ 0 := Nat.pos_iff_ne_zero.mp hc
  cases hash_table with
  | mk entries bucket_mutexes =>
    simp only at hl hm
    subst hm
    have hi2 : base.bernstein_hash key % base.HASH_TABLE_CAPACITY < entries.length := by
      rw [hl]; exact hi
    cases hg : get_list_entry
        entries[base.bernstein_hash key % base.HASH_TABLE_CAPACITY].list_head key with
    | none =>
      have hf := (get_list_entry_none _ _).mp hg
      simp [hash_table_v2_get_value, get_hash_table_entry, pthread_mutex_lock,
        pthread_mutex_unlock, read_list_head, bind, Except.bind, hne, hi,
        hi2, chain, bucket_index, hg, hf]
    | some p =>
      obtain ⟨v, hv, hrd, -⟩ := get_list_entry_some _ _ p hg
      simp [hash_table_v2_get_value, get_hash_table_entry, pthread_mutex_lock,
        pthread_mutex_unlock, read_list_head, bind, Except.bind, pure, Except.pure, hne, hi,
        hi2, mutex_set_set, chain, bucket_index, hg, hv, hrd]

/-! ### The chain of a bucket after a put -/

theorem find_value_update_chain (list_head : List list_entry) (a key : Key) (value : Nat) :
    find_value (update_chain list_head a value) key =
      if key = a then (if (find_value list_head a).isSome then some value else none)
      else find_value list_head key := by
  induction list_head with
  | nil => simp [update_chain, find_value]
  | cons entry rest ih =>
    by_cases ha : entry.key = a
    · by_cases hk : key = a
      · subst hk
        simp [update_chain, find_value, ha]
      · have hk2 : ¬ a = key := fun h => hk h.symm
        simp [update_chain, find_value, ha, hk, hk2]
    · by_cases hk : key = a
      · subst hk
        simp [update_chain, find_value, ha, ih]
      · by_cases he : entry.key = key
        · simp [update_chain, find_value, ha, hk, he]
        · simp [update_chain, find_value, ha, hk, he, ih]

theorem find_value_put_chain (list_head : List list_entry) (a key : Key) (value : Nat) :
    find_value (put_chain list_head a value) key =
      if key = a then some value else find_value list_head key := by
  unfold put_chain
  by_cases hp : (find_value list_head a).isSome
  · rw [if_pos hp, find_value_update_chain]
    by_cases hk : key = a
    · simp [hk, hp]
    · simp [hk]
  · rw [if_neg hp]
    by_cases hk : key = a
    · simp [find_value, hk]
    · have hk2 : ¬ a = key := fun h => hk h.symm
      simp [find_value, hk, hk2]

theorem keys_update_chain (list_head : List list_entry) (a : Key) (value : Nat) :
    (update_chain list_head a value).map (fun list_entry => list_entry.key) =
      list_head.map (fun list_entry => list_entry.key) := by
  induction list_head with
  | nil => simp [update_chain]
  | cons entry rest ih =>
    by_cases ha : entry.key = a
    · simp [update_chain, ha]
    · simp [update_chain, ha, ih]

theorem find_value_isSome (list_head : List list_entry) (key : Key) :
    (find_value list_head key).isSome ↔
      key ∈ list_head.map (fun list_entry => list_entry.key) := by
  induction list_head with
  | nil => simp [find_value]
  | cons entry rest ih =>
    by_cases he : entry.key = key
    · simp [find_value, he]
    · have he2 : ¬ key = entry.key := fun h => he h.symm
      simp [find_value, he, he2, ih]

theorem keys_put_chain (list_head : List list_entry) (a : Key) (value : Nat) :
    (put_chain list_head a value).map (fun list_entry => list_entry.key) =
      if a ∈ list_head.map (fun list_entry => list_entry.key)
      then list_head.map (fun list_entry => list_entry.key)
      else a :: list_head.map (fun list_entry => list_entry.key) := by
  unfold put_chain
  by_cases hp : (find_value list_head a).isSome
  · rw [if_pos hp, if_pos ((find_value_isSome _ _).mp hp), keys_update_chain]
  · rw [if_neg hp, if_neg (fun h => hp ((find_value_isSome _ _).mpr h))]
    simp

theorem mem_put_chain (list_head : List list_entry) (a : Key) (value : Nat)
    (list_entry : list_entry) (h : list_entry ∈ put_chain list_head a value) :
    list_entry.key ∈ a :: list_head.map (fun list_entry => list_entry.key) := by
  have h1 : list_entry.key ∈
      (put_chain list_head a value).map (fun list_entry => list_entry.key) :=
    List.mem_map_of_mem _ h
  rw [keys_put_chain] at h1
  by_cases hp : a ∈ list_head.map (fun list_entry => list_entry.key)
  · rw [if_pos hp] at h1
    exact List.mem_cons_of_mem _ h1
  · rw [if_neg hp] at h1
    exact h1

theorem count_keys_put_chain (list_head : List list_entry) (a key : Key) (value : Nat)
    (h : (list_head.map (fun list_entry => list_entry.key)).count key ≤ 1) :
    ((put_chain list_head a value).map (fun list_entry => list_entry.key)).count key ≤ 1 := by
  rw [keys_put_chain]
  by_cases hp : a ∈ list_head.map (fun list_entry => list_entry.key)
  · rw [if_pos hp]
    exact h
  · rw [if_neg hp]
    by_cases hk : a = key
    · subst hk
      rw [List.count_cons_self, List.count_eq_zero_of_not_mem hp]
    · rw [List.count_cons_of_ne (fun h2 => hk h2.symm)]
      exact h

/-! ### The table `hash_table_v2_create` returns -/

theorem set_replicate_self {α : Type} (n i : Nat) (a : α) :
    (List.replicate n a).set i a = List.replicate n a := by
  apply List.ext_getElem?
  intro j
  by_cases hj : i = j
  · subst hj
    by_cases hi : i < n
    · simp [hi]
    · simp [hi]
  · simp [hj]

theorem create_loop (c n : Nat) (hn : n ≤ c) :
    ((List.range n).foldl
        (fun hash_table i => pthread_mutex_init (SLIST_INIT hash_table i) i)
        ({ entries := List.replicate c { list_head := [] }
           bucket_mutexes := List.replicate c pthread_mutex_t.uninitialised } :
          hash_table_v2)).entries = List.replicate c { list_head := [] } ∧
    ((List.range n).foldl
        (fun hash_table i => pthread_mutex_init (SLIST_INIT hash_table i) i)
        ({ entries := List.replicate c { list_head := [] }
           bucket_mutexes := List.replicate c pthread_mutex_t.uninitialised } :
          hash_table_v2)).bucket_mutexes.length = c ∧
    ∀ j, j < n →
      ((List.range n).foldl
        (fun hash_table i => pthread_mutex_init (SLIST_INIT hash_table i) i)
        ({ entries := List.replicate c { list_head := [] }
           bucket_mutexes := List.replicate c pthread_mutex_t.uninitialised } :
          hash_table_v2)).bucket_mutexes[j]? = some pthread_mutex_t.unlocked := by
  induction n with
  | zero => simp
  | succ n ih =>
    obtain ⟨h1, h2, h3⟩ := ih (Nat.le_of_succ_le hn)
    rw [List.range_succ, List.foldl_append]
    simp only [List.foldl_cons, List.foldl_nil]
    generalize (List.range n).foldl
      (fun hash_table i => pthread_mutex_init (SLIST_INIT hash_table i) i)
      ({ entries := List.replicate c { list_head := [] }
         bucket_mutexes := List.replicate c pthread_mutex_t.uninitialised } :
        hash_table_v2) = r at h1 h2 h3
    simp only [pthread_mutex_init, SLIST_INIT]
    refine ⟨?_, ?_, ?_⟩
    · rw [h1, set_replicate_self]
    · rw [List.length_set, h2]
    · intro j hj
      by_cases hjn : n = j
      · subst hjn
        have : n < c := hn
        simp [h2, this]
      · have hlt : j < n := by omega
        simp [hjn, h3 j hlt]

theorem hash_table_v2_create_eq (base : hash_table_base) :
    hash_table_v2_create base =
      { entries := List.replicate base.HASH_TABLE_CAPACITY { list_head := [] }
        bucket_mutexes :=
          List.replicate base.HASH_TABLE_CAPACITY pthread_mutex_t.unlocked } := by
  obtain ⟨h1, h2, h3⟩ := create_loop base.HASH_TABLE_CAPACITY base.HASH_TABLE_CAPACITY
    (Nat.le_refl _)
  unfold hash_table_v2_create
  generalize (List.range base.HASH_TABLE_CAPACITY).foldl
    (fun hash_table i => pthread_mutex_init (SLIST_INIT hash_table i) i)
    ({ entries := List.replicate base.HASH_TABLE_CAPACITY { list_head := [] }
       bucket_mutexes := List.replicate base.HASH_TABLE_CAPACITY pthread_mutex_t.uninitialised } :
      hash_table_v2) = r at h1 h2 h3
  cases r with
  | mk entries bucket_mutexes =>
    simp only at h1 h2 h3
    subst h1
    congr 1
    apply List.ext_getElem?
    intro j
    by_cases hj : j < base.HASH_TABLE_CAPACITY
    · rw [h3 j hj]
      simp [hj]
    · have h4 : bucket_mutexes.length ≤ j := by omega
      rw [List.getElem?_eq_none h4]
      have h5 : base.HASH_TABLE_CAPACITY ≤ j := by omega
      simp [h5]

theorem Ready_create (base : hash_table_base) : Ready base (hash_table_v2_create base) := by
  rw [hash_table_v2_create_eq]
  exact ⟨by simp, rfl⟩

theorem chain_create (base : hash_table_base) (i : Nat) :
    chain (hash_table_v2_create base) i = [] := by
  rw [hash_table_v2_create_eq]
  unfold chain
  by_cases hi : i < base.HASH_TABLE_CAPACITY
  · simp [hi]
  · have h5 : (List.replicate base.HASH_TABLE_CAPACITY
        ({ list_head := [] } : hash_table_entry))[i]? = none := by
      apply List.getElem?_eq_none
      simp
      omega
    rw [h5]

theorem all_entries_replicate (n : Nat) :
    (List.replicate n ({ list_head := [] } : hash_table_entry)).foldr
      (fun hash_table_entry rest => hash_table_entry.list_head ++ rest) [] = [] := by
  induction n with
  | zero => rfl
  | succ n ih => simp [List.replicate_succ, ih]

theorem table_keys_create (base : hash_table_base) :
    table_keys (hash_table_v2_create base) = [] := by
  rw [hash_table_v2_create_eq]
  simp [table_keys, all_entries, all_entries_replicate]

theorem Placement_create (base : hash_table_base) :
    Placement base (hash_table_v2_create base) := by
  intro i b hb e he
  have h := chain_create base i
  unfold chain at h
  rw [hb] at h
  simp only at h
  rw [h] at he
  simp at he

theorem ChainUnique_create (base : hash_table_base) :
    ChainUnique (hash_table_v2_create base) := by
  intro i key
  rw [chain_create]
  simp

/-! ### The table after a call -/

theorem Ready_write_list_head (base : hash_table_base) (hash_table : hash_table_v2)
    (i : Nat) (list_head : List list_entry) (hr : Ready base hash_table) :
    Ready base (write_list_head hash_table i list_head) := by
  obtain ⟨hl, hm⟩ := hr
  exact ⟨by simp [write_list_head, hl], by simp [write_list_head, hm]⟩

theorem bucket_index_lt (base : hash_table_base) (hash_table : hash_table_v2) (key : Key)
    (hr : Ready base hash_table) (hc : 0 < base.HASH_TABLE_CAPACITY) :
    bucket_index base key < hash_table.entries.length := by
  rw [hr.1]
  exact Nat.mod_lt _ hc

theorem lookup_put (base : hash_table_base) (hash_table : hash_table_v2) (a key : Key)
    (value : Nat) (hi : bucket_index base a < hash_table.entries.length) :
    lookup base (write_list_head hash_table (bucket_index base a)
      (put_chain (chain hash_table (bucket_index base a)) a value)) key =
      if key = a then some value else lookup base hash_table key := by
  unfold lookup
  rw [chain_write_list_head _ _ _ _ hi]
  by_cases hk : key = a
  · subst hk
    simp [find_value_put_chain]
  · by_cases hb : bucket_index base key = bucket_index base a
    · rw [if_pos hb, find_value_put_chain, if_neg hk, if_neg hk, hb]
    · rw [if_neg hb, if_neg hk]

theorem add_entry_entries (base : hash_table_base) (hash_table after : hash_table_v2)
    (key : Key) (value : Nat)
    (h : hash_table_v2_add_entry base hash_table key value = Except.ok after) :
    0 < base.HASH_TABLE_CAPACITY ∧ bucket_index base key < hash_table.entries.length ∧
      after.entries = hash_table.entries.set (bucket_index base key)
        { list_head := put_chain (chain hash_table (bucket_index base key)) key value } := by
  by_cases h0 : base.HASH_TABLE_CAPACITY = 0
  · simp [hash_table_v2_add_entry, get_hash_table_entry, bind, Except.bind, h0] at h
  by_cases hi : base.bernstein_hash key % base.HASH_TABLE_CAPACITY < hash_table.entries.length
  · refine ⟨Nat.pos_of_ne_zero h0, hi, ?_⟩
    cases hm : hash_table.bucket_mutexes[base.bernstein_hash key %
        base.HASH_TABLE_CAPACITY]? with
    | none =>
      simp [hash_table_v2_add_entry, get_hash_table_entry, pthread_mutex_lock, bind,
        Except.bind, h0, hi, hm] at h
    | some m =>
      have hlen : base.bernstein_hash key % base.HASH_TABLE_CAPACITY <
          hash_table.bucket_mutexes.length := by
        by_contra hcon
        rw [List.getElem?_eq_none (Nat.le_of_not_lt hcon)] at hm
        exact Option.noConfusion hm
      cases m with
      | uninitialised =>
        simp [hash_table_v2_add_entry, get_hash_table_entry, pthread_mutex_lock, bind,
          Except.bind, h0, hi, hm] at h
      | locked =>
        simp [hash_table_v2_add_entry, get_hash_table_entry, pthread_mutex_lock, bind,
          Except.bind, h0, hi, hm] at h
      | unlocked =>
        cases hg : get_list_entry
            hash_table.entries[base.bernstein_hash key % base.HASH_TABLE_CAPACITY].list_head
            key with
        | none =>
          have hf := (get_list_entry_none _ _).mp hg
          simp [hash_table_v2_add_entry, get_hash_table_entry, pthread_mutex_lock,
            pthread_mutex_unlock, read_list_head, write_list_head, bind, Except.bind, h0, hi,
            hm, hlen, hg] at h
          rw [← h]
          simp [chain, bucket_index, put_chain, hi, hf]
        | some p =>
          obtain ⟨v, hv, -, hw⟩ := get_list_entry_some _ _ p hg
          simp [hash_table_v2_add_entry, get_hash_table_entry, pthread_mutex_lock,
            pthread_mutex_unlock, read_list_head, write_list_head, bind, Except.bind, h0, hi,
            hm, hlen, hg] at h
          rw [← h]
          simp [chain, bucket_index, put_chain, hi, hv, hw]
  · simp [hash_table_v2_add_entry, get_hash_table_entry, bind, Except.bind, h0, hi] at h

theorem capacity_pos_of_contains (base : hash_table_base) (hash_table : hash_table_v2)
    (key : Key) (r : Bool × hash_table_v2)
    (h : hash_table_v2_contains base hash_table key = Except.ok r) :
    0 < base.HASH_TABLE_CAPACITY := by
  by_cases h0 : base.HASH_TABLE_CAPACITY = 0
  · simp [hash_table_v2_contains, get_hash_table_entry, bind, Except.bind, h0] at h
  · exact Nat.pos_of_ne_zero h0

theorem capacity_pos_of_get_value (base : hash_table_base) (hash_table : hash_table_v2)
    (key : Key) (r : Nat × hash_table_v2)
    (h : hash_table_v2_get_value base hash_table key = Except.ok r) :
    0 < base.HASH_TABLE_CAPACITY := by
  by_cases h0 : base.HASH_TABLE_CAPACITY = 0
  · simp [hash_table_v2_get_value, get_hash_table_entry, bind, Except.bind, h0] at h
  · exact Nat.pos_of_ne_zero h0

theorem Placement_set (base : hash_table_base) (hash_table after : hash_table_v2)
    (key : Key) (value : Nat) (hp : Placement base hash_table)
    (h : after.entries = hash_table.entries.set (bucket_index base key)
        { list_head := put_chain (chain hash_table (bucket_index base key)) key value }) :
    Placement base after := by
  intro i b hb e he
  rw [h] at hb
  by_cases hi : bucket_index base key = i
  · subst hi
    by_cases hlt : bucket_index base key < hash_table.entries.length
    · rw [List.getElem?_set_self hlt] at hb
      cases hb
      have hmem := mem_put_chain _ _ _ _ he
      rcases List.mem_cons.mp hmem with hk | hk
      · rw [hk]
        rfl
      · obtain ⟨e2, he2, hk2⟩ := List.mem_map.mp hk
        rw [← hk2]
        apply hp (bucket_index base key) hash_table.entries[bucket_index base key]
        · exact List.getElem?_eq_getElem hlt
        · simpa [chain, hlt] using he2
    · rw [List.getElem?_eq_none (by simpa using Nat.le_of_not_lt hlt)] at hb
      exact Option.noConfusion hb
  · rw [List.getElem?_set_ne hi] at hb
    exact hp i b hb e he

theorem Placement_add_entry (base : hash_table_base) (hash_table after : hash_table_v2)
    (key : Key) (value : Nat) (hp : Placement base hash_table)
    (h : hash_table_v2_add_entry base hash_table key value = Except.ok after) :
    Placement base after :=
  Placement_set base hash_table after key value hp (add_entry_entries _ _ _ _ _ h).2.2

theorem ChainUnique_write_list_head (hash_table : hash_table_v2) (a : Key) (value : Nat)
    (i : Nat) (hi : i < hash_table.entries.length) (hu : ChainUnique hash_table) :
    ChainUnique (write_list_head hash_table i (put_chain (chain hash_table i) a value)) := by
  intro j key
  rw [chain_write_list_head _ _ _ _ hi]
  by_cases hj : j = i
  · rw [if_pos hj]
    exact count_keys_put_chain _ _ _ _ (hu i key)
  · rw [if_neg hj]
    exact hu j key

/-- What holds of every table a program can hold. -/
theorem Reachable_invariant (base : hash_table_base) (hash_table : hash_table_v2)
    (h : Reachable base hash_table) :
    Ready base hash_table ∧ Placement base hash_table ∧ ChainUnique hash_table := by
  induction h with
  | create => exact ⟨Ready_create base, Placement_create base, ChainUnique_create base⟩
  | add_entry t after key value _ hok ih =>
    obtain ⟨hr, hp, hu⟩ := ih
    have hc := (add_entry_entries _ _ _ _ _ hok).1
    have hi := bucket_index_lt base t key hr hc
    rw [hash_table_v2_add_entry_eq base t key value hr hc] at hok
    cases hok
    exact ⟨Ready_write_list_head _ _ _ _ hr, Placement_set _ _ _ key value hp rfl,
      ChainUnique_write_list_head _ _ _ _ hi hu⟩
  | contains t after key result _ hok ih =>
    have hc := capacity_pos_of_contains _ _ _ _ hok
    rw [hash_table_v2_contains_eq base t key ih.1 hc] at hok
    cases hok
    exact ih
  | get_value t after key value _ hok ih =>
    have hc := capacity_pos_of_get_value _ _ _ _ hok
    rw [hash_table_v2_get_value_eq base t key ih.1 hc] at hok
    cases hf : find_value (chain t (bucket_index base key)) key with
    | none =>
      rw [hf] at hok
      exact Except.noConfusion hok
    | some v =>
      rw [hf] at hok
      cases hok
      exact ih

/-! ### Counting the entries with a key -/

theorem count_key_buckets (key : Key) (bs : List hash_table_entry) :
    ∀ i : Nat,
      (∀ (j : Nat) (b : hash_table_entry), bs[j]? = some b → j ≠ i →
        key ∉ b.list_head.map (fun list_entry => list_entry.key)) →
      ((bs.foldr (fun hash_table_entry rest => hash_table_entry.list_head ++ rest) []).map
          (fun list_entry => list_entry.key)).count key =
        ((match bs[i]? with
          | some hash_table_entry => hash_table_entry.list_head
          | none => []).map (fun list_entry : list_entry => list_entry.key)).count key := by
  induction bs with
  | nil => intro i _; simp
  | cons b bs ih =>
    intro i h
    rw [List.foldr_cons, List.map_append, List.count_append]
    cases i with
    | zero =>
      have hrest := ih bs.length (fun j b2 hb2 _ => h (j + 1) b2 (by simpa using hb2) (by omega))
      rw [hrest]
      simp
    | succ i =>
      have hhead : key ∉ b.list_head.map (fun list_entry => list_entry.key) :=
        h 0 b (by simp) (by omega)
      have hrest := ih i (fun j b2 hb2 hj => h (j + 1) b2 (by simpa using hb2) (by omega))
      rw [hrest, List.count_eq_zero_of_not_mem hhead]
      simp

theorem count_table_keys (base : hash_table_base) (hash_table : hash_table_v2) (key : Key)
    (hp : Placement base hash_table) :
    (table_keys hash_table).count key =
      ((chain hash_table (bucket_index base key)).map
        (fun list_entry => list_entry.key)).count key := by
  unfold table_keys all_entries chain
  apply count_key_buckets
  intro j b hb hj hmem
  obtain ⟨e, he, hk⟩ := List.mem_map.mp hmem
  have := hp j b hb e he
  rw [hk] at this
  exact hj this.symm

theorem KeyUnique_of_invariant (base : hash_table_base) (hash_table : hash_table_v2)
    (hp : Placement base hash_table) (hu : ChainUnique hash_table) :
    KeyUnique hash_table := by
  unfold KeyUnique
  rw [List.nodup_iff_count_le_one]
  intro key
  rw [count_table_keys base hash_table key hp]
  exact hu _ key

/-! ### Sequences of puts -/

theorem put_all_lookup (base : hash_table_base) (hc : 0 < base.HASH_TABLE_CAPACITY)
    (puts : List (Key × Nat)) :
    ∀ hash_table : hash_table_v2, Ready base hash_table →
      ∃ after, put_all base hash_table puts = Except.ok after ∧ Ready base after ∧
        ∀ key, lookup base after key =
          match last_value puts key with
          | some w => some w
          | none => lookup base hash_table key := by
  induction puts with
  | nil =>
    intro t hr
    exact ⟨t, rfl, hr, fun key => rfl⟩
  | cons p rest ih =>
    intro t hr
    obtain ⟨a, v⟩ := p
    have hi := bucket_index_lt base t a hr hc
    obtain ⟨after, h1, h2, h3⟩ := ih _
      (Ready_write_list_head base t (bucket_index base a)
        (put_chain (chain t (bucket_index base a)) a v) hr)
    refine ⟨after, ?_, h2, ?_⟩
    · simp only [put_all]
      rw [hash_table_v2_add_entry_eq base t a v hr hc]
      exact h1
    · intro key
      rw [h3 key, lookup_put _ _ _ _ _ hi]
      simp only [last_value]
      cases last_value rest key with
      | some w => rfl
      | none =>
        by_cases hk : key = a
        · subst hk
          simp
        · have hk2 : ¬ a = key := fun h => hk h.symm
          simp [hk, hk2]

theorem last_value_isSome (puts : List (Key × Nat)) (key : Key) :
    (last_value puts key).isSome ↔ key ∈ puts.map Prod.fst := by
  induction puts with
  | nil => simp [last_value]
  | cons p rest ih =>
    obtain ⟨a, v⟩ := p
    simp only [last_value, List.map_cons, List.mem_cons]
    cases hl : last_value rest key with
    | some w =>
      rw [hl] at ih
      simp at ih
      simp [ih]
    | none =>
      rw [hl] at ih
      simp at ih
      by_cases hk : a = key
      · simp [hk]
      · have hk2 : ¬ key = a := fun h => hk h.symm
        simp [hk, hk2, ih]

theorem last_value_append (pre post : List (Key × Nat)) (key : Key) (value : Nat)
    (h : key ∉ post.map Prod.fst) :
    last_value (pre ++ (key, value) :: post) key = some value := by
  have hpost : last_value post key = none := by
    cases hl : last_value post key with
    | none => rfl
    | some w =>
      have := (last_value_isSome post key).mp (by rw [hl]; rfl)
      exact absurd this h
  induction pre with
  | nil => simp [last_value, hpost]
  | cons p rest ih =>
    obtain ⟨a, v⟩ := p
    simp [last_value, ih]

theorem lookup_create (base : hash_table_base) (key : Key) :
    lookup base (hash_table_v2_create base) key = none := by
  unfold lookup
  rw [chain_create]
  rfl

theorem after_puts (base : hash_table_base) (hc : 0 < base.HASH_TABLE_CAPACITY)
    (puts : List (Key × Nat)) :
    ∃ after, put_all base (hash_table_v2_create base) puts = Except.ok after ∧
      Ready base after ∧ ∀ key, lookup base after key = last_value puts key := by
  obtain ⟨after, h1, h2, h3⟩ := put_all_lookup base hc puts _ (Ready_create base)
  refine ⟨after, h1, h2, ?_⟩
  intro key
  rw [h3 key, lookup_create]
  cases last_value puts key <;> rfl

theorem contains_of_lookup (base : hash_table_base) (hash_table : hash_table_v2) (key : Key)
    (hr : Ready base hash_table) (hc : 0 < base.HASH_TABLE_CAPACITY) :
    hash_table_v2_contains base hash_table key =
      Except.ok ((lookup base hash_table key).isSome, hash_table) :=
  hash_table_v2_contains_eq base hash_table key hr hc

theorem get_value_of_lookup (base : hash_table_base) (hash_table : hash_table_v2) (key : Key)
    (value : Nat) (hr : Ready base hash_table) (hc : 0 < base.HASH_TABLE_CAPACITY)
    (hl : lookup base hash_table key = some value) :
    hash_table_v2_get_value base hash_table key = Except.ok (value, hash_table) := by
  rw [hash_table_v2_get_value_eq base hash_table key hr hc]
  unfold lookup at hl
  rw [hl]

theorem get_value_of_lookup_none (base : hash_table_base) (hash_table : hash_table_v2)
    (key : Key) (hr : Ready base hash_table) (hc : 0 < base.HASH_TABLE_CAPACITY)
    (hl : lookup base hash_table key = none) :
    hash_table_v2_get_value base hash_table key = Except.error Fault.assertion_failure := by
  rw [hash_table_v2_get_value_eq base hash_table key hr hc]
  unfold lookup at hl
  rw [hl]

/-! ### The three operations on any table -/

theorem mutex_set_self (mutexes : List pthread_mutex_t) (i : Nat) (m : pthread_mutex_t)
    (h : mutexes[i]? = some m) : mutexes.set i m = mutexes := by
  apply List.ext_getElem?
  intro j
  by_cases hj : i = j
  · subst hj
    have hlen : i < mutexes.length := by
      by_contra hcon
      rw [List.getElem?_eq_none (Nat.le_of_not_lt hcon)] at h
      exact Option.noConfusion h
    simp [hlen, h]
  · simp [hj]

theorem mutex_length_of_some (mutexes : List pthread_mutex_t) (i : Nat) (m : pthread_mutex_t)
    (h : mutexes[i]? = some m) : i < mutexes.length := by
  by_contra hcon
  rw [List.getElem?_eq_none (Nat.le_of_not_lt hcon)] at h
  exact Option.noConfusion h

theorem Callable_of_Ready (base : hash_table_base) (hash_table : hash_table_v2) (key : Key)
    (hr : Ready base hash_table) (hc : 0 < base.HASH_TABLE_CAPACITY) :
    Callable base hash_table key := by
  refine ⟨hc, bucket_index_lt base hash_table key hr hc, ?_⟩
  rw [hr.2]
  have : bucket_index base key < base.HASH_TABLE_CAPACITY := Nat.mod_lt _ hc
  simp [this]

theorem contains_of_Callable (base : hash_table_base) (hash_table : hash_table_v2) (key : Key)
    (h : Callable base hash_table key) :
    hash_table_v2_contains base hash_table key =
      Except.ok ((find_value (chain hash_table (bucket_index base key)) key).isSome,
        hash_table) := by
  obtain ⟨hc, hi, hm⟩ := h
  have hne : base.HASH_TABLE_CAPACITY ≠ 0 := Nat.pos_iff_ne_zero.mp hc
  have hlen := mutex_length_of_some _ _ _ hm
  have hs := mutex_set_self _ _ _ hm
  unfold bucket_index at hi hm hlen hs
  cases hash_table with
  | mk entries bucket_mutexes =>
    simp only at hi hm hlen hs
    simp [hash_table_v2_contains, get_hash_table_entry, pthread_mutex_lock,
      pthread_mutex_unlock, read_list_head, bind, Except.bind, pure, Except.pure, hne, hi, hm,
      hlen, hs, chain, bucket_index]
    cases hg : get_list_entry
        entries[base.bernstein_hash key % base.HASH_TABLE_CAPACITY].list_head key with
    | none => simp [(get_list_entry_none _ _).mp hg]
    | some p =>
      obtain ⟨v, hv, -, -⟩ := get_list_entry_some _ _ p hg
      simp [hv]

theorem add_entry_of_Callable (base : hash_table_base) (hash_table : hash_table_v2)
    (key : Key) (value : Nat) (h : Callable base hash_table key) :
    hash_table_v2_add_entry base hash_table key value =
      Except.ok (write_list_head hash_table (bucket_index base key)
        (put_chain (chain hash_table (bucket_index base key)) key value)) := by
  obtain ⟨hc, hi, hm⟩ := h
  have hne : base.HASH_TABLE_CAPACITY ≠ 0 := Nat.pos_iff_ne_zero.mp hc
  have hlen := mutex_length_of_some _ _ _ hm
  have hs := mutex_set_self _ _ _ hm
  unfold bucket_index at hi hm hlen hs
  cases hash_table with
  | mk entries bucket_mutexes =>
    simp only at hi hm hlen hs
    cases hg : get_list_entry
        entries[base.bernstein_hash key % base.HASH_TABLE_CAPACITY].list_head key with
    | none =>
      have hf := (get_list_entry_none _ _).mp hg
      simp [hash_table_v2_add_entry, get_hash_table_entry, pthread_mutex_lock,
        pthread_mutex_unlock, read_list_head, write_list_head, bind, Except.bind, hne, hi,
        hm, hlen, hs, chain, bucket_index, put_chain, hg, hf]
    | some p =>
      obtain ⟨v, hv, -, hw⟩ := get_list_entry_some _ _ p hg
      simp [hash_table_v2_add_entry, get_hash_table_entry, pthread_mutex_lock,
        pthread_mutex_unlock, read_list_head, write_list_head, bind, Except.bind, hne, hi,
        hm, hlen, hs, chain, bucket_index, put_chain, hg, hv, hw]

theorem get_value_of_Callable (base : hash_table_base) (hash_table : hash_table_v2)
    (key : Key) (h : Callable base hash_table key) :
    hash_table_v2_get_value base hash_table key =
      match find_value (chain hash_table (bucket_index base key)) key with
      | some v => Except.ok (v, hash_table)
      | none => Except.error Fault.assertion_failure := by
  obtain ⟨hc, hi, hm⟩ := h
  have hne : base.HASH_TABLE_CAPACITY ≠ 0 := Nat.pos_iff_ne_zero.mp hc
  have hlen := mutex_length_of_some _ _ _ hm
  have hs := mutex_set_self _ _ _ hm
  unfold bucket_index at hi hm hlen hs
  cases hash_table with
  | mk entries bucket_mutexes =>
    simp only at hi hm hlen hs
    cases hg : get_list_entry
        entries[base.bernstein_hash key % base.HASH_TABLE_CAPACITY].list_head key with
    | none =>
      have hf := (get_list_entry_none _ _).mp hg
      simp [hash_table_v2_get_value, get_hash_table_entry, pthread_mutex_lock,
        pthread_mutex_unlock, read_list_head, bind, Except.bind, hne, hi, hm,
        chain, bucket_index, hg, hf]
    | some p =>
      obtain ⟨v, hv, hrd, -⟩ := get_list_entry_some _ _ p hg
      simp [hash_table_v2_get_value, get_hash_table_entry, pthread_mutex_lock,
        pthread_mutex_unlock, read_list_head, bind, Except.bind, pure, Except.pure, hne, hi,
        hm, hlen, hs, chain, bucket_index, hg, hv, hrd]

theorem Callable_of_lock (base : hash_table_base) (hash_table : hash_table_v2) (key : Key)
    (index : Nat) (locked : hash_table_v2)
    (h1 : get_hash_table_entry base hash_table key = Except.ok index)
    (h2 : pthread_mutex_lock hash_table index = Except.ok locked) :
    Callable base hash_table key := by
  by_cases h0 : base.HASH_TABLE_CAPACITY = 0
  · simp [get_hash_table_entry, h0] at h1
  by_cases hi : base.bernstein_hash key % base.HASH_TABLE_CAPACITY < hash_table.entries.length
  · simp [get_hash_table_entry, h0, hi] at h1
    subst h1
    refine ⟨Nat.pos_of_ne_zero h0, hi, ?_⟩
    cases hm : hash_table.bucket_mutexes[base.bernstein_hash key %
        base.HASH_TABLE_CAPACITY]? with
    | none => simp [pthread_mutex_lock, hm] at h2
    | some m =>
      cases m with
      | uninitialised => simp [pthread_mutex_lock, hm] at h2
      | locked => simp [pthread_mutex_lock, hm] at h2
      | unlocked => exact hm
  · simp [get_hash_table_entry, h0, hi] at h1

theorem Callable_of_contains (base : hash_table_base) (hash_table : hash_table_v2) (key : Key)
    (r : Bool × hash_table_v2)
    (h : hash_table_v2_contains base hash_table key = Except.ok r) :
    Callable base hash_table key := by
  unfold hash_table_v2_contains at h
  cases h1 : get_hash_table_entry base hash_table key with
  | error f => simp [h1, bind, Except.bind] at h
  | ok index =>
    cases h2 : pthread_mutex_lock hash_table index with
    | error f => simp [h1, h2, bind, Except.bind] at h
    | ok locked => exact Callable_of_lock base hash_table key index locked h1 h2

theorem Callable_of_add_entry (base : hash_table_base) (hash_table : hash_table_v2)
    (key : Key) (value : Nat) (r : hash_table_v2)
    (h : hash_table_v2_add_entry base hash_table key value = Except.ok r) :
    Callable base hash_table key := by
  unfold hash_table_v2_add_entry at h
  cases h1 : get_hash_table_entry base hash_table key with
  | error f => simp [h1, bind, Except.bind] at h
  | ok index =>
    cases h2 : pthread_mutex_lock hash_table index with
    | error f => simp [h1, h2, bind, Except.bind] at h
    | ok locked => exact Callable_of_lock base hash_table key index locked h1 h2

theorem Callable_of_get_value (base : hash_table_base) (hash_table : hash_table_v2)
    (key : Key) (r : Nat × hash_table_v2)
    (h : hash_table_v2_get_value base hash_table key = Except.ok r) :
    Callable base hash_table key := by
  unfold hash_table_v2_get_value at h
  cases h1 : get_hash_table_entry base hash_table key with
  | error f => simp [h1, bind, Except.bind] at h
  | ok index =>
    cases h2 : pthread_mutex_lock hash_table index with
    | error f => simp [h1, h2, bind, Except.bind] at h
    | ok locked => exact Callable_of_lock base hash_table key index locked h1 h2

theorem contains_returns (base : hash_table_base) (hash_table after : hash_table_v2)
    (key : Key) (result : Bool)
    (h : hash_table_v2_contains base hash_table key = Except.ok (result, after)) :
    after = hash_table ∧
      result = (find_value (chain hash_table (bucket_index base key)) key).isSome := by
  have hcall := Callable_of_contains base hash_table key _ h
  rw [contains_of_Callable base hash_table key hcall] at h
  cases h
  exact ⟨rfl, rfl⟩

theorem get_value_returns (base : hash_table_base) (hash_table after : hash_table_v2)
    (key : Key) (value : Nat)
    (h : hash_table_v2_get_value base hash_table key = Except.ok (value, after)) :
    after = hash_table ∧
      find_value (chain hash_table (bucket_index base key)) key = some value := by
  have hcall := Callable_of_get_value base hash_table key _ h
  rw [get_value_of_Callable base hash_table key hcall] at h
  cases hf : find_value (chain hash_table (bucket_index base key)) key with
  | none =>
    rw [hf] at h
    exact Except.noConfusion h
  | some v =>
    rw [hf] at h
    cases h
    exact ⟨rfl, rfl⟩

theorem add_entry_returns (base : hash_table_base) (hash_table after : hash_table_v2)
    (key : Key) (value : Nat)
    (h : hash_table_v2_add_entry base hash_table key value = Except.ok after) :
    after = write_list_head hash_table (bucket_index base key)
      (put_chain (chain hash_table (bucket_index base key)) key value) := by
  have hcall := Callable_of_add_entry base hash_table key value _ h
  rw [add_entry_of_Callable base hash_table key value hcall] at h
  cases h
  rfl

/-! ### More on the chain of a bucket after a put -/

theorem update_chain_self (list_head : List list_entry) (key : Key) (value : Nat)
    (h : find_value list_head key = some value) :
    update_chain list_head key value = list_head := by
  induction list_head with
  | nil => rfl
  | cons entry rest ih =>
    by_cases hk : entry.key = key
    · simp [find_value, hk] at h
      cases entry with
      | mk k v =>
        simp only at hk h
        simp [update_chain, hk, h]
    · simp [find_value, hk] at h
      simp [update_chain, hk, ih h]

theorem put_chain_put_chain (list_head : List list_entry) (key : Key) (value : Nat) :
    put_chain (put_chain list_head key value) key value = put_chain list_head key value := by
  have h : find_value (put_chain list_head key value) key = some value := by
    rw [find_value_put_chain, if_pos rfl]
  generalize put_chain list_head key value = after at h
  unfold put_chain
  rw [h, update_chain_self _ _ _ h]
  rfl

theorem map_value_of_not_mem (list_head : List list_entry) (key : Key) (value : Nat)
    (h : key ∉ list_head.map (fun list_entry => list_entry.key)) :
    list_head.map (fun list_entry =>
      if list_entry.key = key then { list_entry with value := value } else list_entry) =
      list_head := by
  induction list_head with
  | nil => rfl
  | cons entry rest ih =>
    simp only [List.map_cons, List.mem_cons, not_or] at h
    have hk : ¬ entry.key = key := fun hh => h.1 hh.symm
    simp only [List.map_cons, if_neg hk]
    rw [ih h.2]

theorem update_chain_eq_map (list_head : List list_entry) (key : Key) (value : Nat)
    (h : (list_head.map (fun list_entry => list_entry.key)).count key ≤ 1) :
    update_chain list_head key value =
      list_head.map (fun list_entry =>
        if list_entry.key = key then { list_entry with value := value } else list_entry) := by
  induction list_head with
  | nil => rfl
  | cons entry rest ih =>
    by_cases hk : entry.key = key
    · have hrest : key ∉ rest.map (fun list_entry => list_entry.key) := by
        intro hmem
        have hpos := List.count_pos_iff.mpr hmem
        rw [List.map_cons, hk, List.count_cons_self] at h
        omega
      simp only [update_chain, if_pos hk, List.map_cons]
      rw [map_value_of_not_mem rest key value hrest]
    · have hle : (rest.map (fun list_entry => list_entry.key)).count key ≤ 1 := by
        rw [List.map_cons, List.count_cons_of_ne (fun hh => hk hh.symm)] at h
        exact h
      simp only [update_chain, if_neg hk, List.map_cons]
      rw [ih hle]

theorem length_foldr_set (bs : List hash_table_entry) :
    ∀ (i : Nat) (list_head : List list_entry) (hi : i < bs.length),
      ((bs.set i { list_head := list_head }).foldr
          (fun hash_table_entry rest => hash_table_entry.list_head ++ rest) []).length +
        (bs.get ⟨i, hi⟩).list_head.length =
      (bs.foldr (fun hash_table_entry rest => hash_table_entry.list_head ++ rest) []).length +
        list_head.length := by
  induction bs with
  | nil => intro i _ hi; simp at hi
  | cons b bs ih =>
    intro i list_head hi
    cases i with
    | zero =>
      simp only [List.set_cons_zero, List.foldr_cons, List.length_append, List.get_eq_getElem,
        List.getElem_cons_zero]
      omega
    | succ i =>
      have hi2 : i < bs.length := by simpa using hi
      have := ih i list_head hi2
      simp only [List.set_cons_succ, List.foldr_cons, List.length_append, List.get_eq_getElem,
        List.getElem_cons_succ] at this ⊢
      omega

theorem length_all_entries_write (hash_table : hash_table_v2) (i : Nat)
    (list_head : List list_entry) (hi : i < hash_table.entries.length) :
    (all_entries (write_list_head hash_table i list_head)).length +
        (chain hash_table i).length =
      (all_entries hash_table).length + list_head.length := by
  have h := length_foldr_set hash_table.entries i list_head hi
  have hc : chain hash_table i = (hash_table.entries.get ⟨i, hi⟩).list_head := by
    simp [chain, hi]
  rw [hc]
  exact h

/-! ### A put of a key that is present -/

theorem bucket_of_mem_chain (base : hash_table_base) (hash_table : hash_table_v2) (i : Nat)
    (list_entry : list_entry) (hp : Placement base hash_table)
    (h : list_entry ∈ chain hash_table i) : bucket_index base list_entry.key = i := by
  unfold chain at h
  cases hb : hash_table.entries[i]? with
  | none =>
    rw [hb] at h
    simp at h
  | some b =>
    rw [hb] at h
    exact hp i b hb list_entry h

theorem chain_after_update (base : hash_table_base) (hash_table : hash_table_v2) (key : Key)
    (value : Nat) (hp : Placement base hash_table) (hu : ChainUnique hash_table)
    (hi : bucket_index base key < hash_table.entries.length)
    (hpresent : (find_value (chain hash_table (bucket_index base key)) key).isSome) (i : Nat) :
    chain (write_list_head hash_table (bucket_index base key)
        (put_chain (chain hash_table (bucket_index base key)) key value)) i =
      (chain hash_table i).map (fun list_entry =>
        if list_entry.key = key then { list_entry with value := value } else list_entry) := by
  rw [chain_write_list_head _ _ _ _ hi]
  by_cases hj : i = bucket_index base key
  · rw [if_pos hj, hj]
    unfold put_chain
    rw [if_pos hpresent]
    exact update_chain_eq_map _ key value (hu _ key)
  · rw [if_neg hj]
    symm
    apply map_value_of_not_mem
    intro hmem
    obtain ⟨e, he, hk⟩ := List.mem_map.mp hmem
    have := bucket_of_mem_chain base hash_table i e hp he
    rw [hk] at this
    exact hj this.symm

theorem count_present (base : hash_table_base) (hash_table : hash_table_v2) (key : Key)
    (hp : Placement base hash_table) (hu : ChainUnique hash_table)
    (hpresent : (find_value (chain hash_table (bucket_index base key)) key).isSome) :
    (table_keys hash_table).count key = 1 := by
  rw [count_table_keys base hash_table key hp]
  apply Nat.le_antisymm (hu _ key)
  apply List.count_pos_iff.mpr
  exact (find_value_isSome _ key).mp hpresent

/-! ### The tables of the examples -/

theorem Reachable_table_b_a : Reachable one_bucket table_b_a :=
  Reachable.add_entry
    { entries := [{ list_head := [{ key := "a", value := 1 }] }]
      bucket_mutexes := [pthread_mutex_t.unlocked] } _ "b" 2
    (Reachable.add_entry (hash_table_v2_create one_bucket) _ "a" 1 Reachable.create
      (by decide))
    (by decide)

theorem Reachable_table_a_bb : Reachable three_buckets table_a_bb :=
  Reachable.add_entry
    { entries := [{ list_head := [] }, { list_head := [{ key := "a", value := 1 }] },
        { list_head := [] }]
      bucket_mutexes :=
        [pthread_mutex_t.unlocked, pthread_mutex_t.unlocked, pthread_mutex_t.unlocked] }
    _ "bb" 2
    (Reachable.add_entry (hash_table_v2_create three_buckets) _ "a" 1 Reachable.create
      (by decide))
    (by decide)

/-! ### The events of a call -/

theorem contains_events_of_Callable (base : hash_table_base) (hash_table : hash_table_v2)
    (key : Key) (h : Callable base hash_table key) :
    hash_table_v2_contains_events base hash_table key =
      Except.ok ((find_value (chain hash_table (bucket_index base key)) key).isSome,
        { hash_table := hash_table
          events := [Event.lock (bucket_index base key), Event.scan (bucket_index base key),
            Event.unlock (bucket_index base key)] }) := by
  obtain ⟨hc, hi, hm⟩ := h
  have hne : base.HASH_TABLE_CAPACITY ≠ 0 := Nat.pos_iff_ne_zero.mp hc
  have hlen := mutex_length_of_some _ _ _ hm
  have hs := mutex_set_self _ _ _ hm
  unfold bucket_index at hi hm hlen hs
  cases hash_table with
  | mk entries bucket_mutexes =>
    simp only at hi hm hlen hs
    simp [hash_table_v2_contains_events, get_hash_table_entry, lock_event, unlock_event,
      scan_event, pthread_mutex_lock, pthread_mutex_unlock, read_list_head, bind, Except.bind,
      pure, Except.pure, hne, hi, hm, hlen, hs, chain, bucket_index]
    cases hg : get_list_entry
        entries[base.bernstein_hash key % base.HASH_TABLE_CAPACITY].list_head key with
    | none => simp [(get_list_entry_none _ _).mp hg]
    | some p =>
      obtain ⟨v, hv, -, -⟩ := get_list_entry_some _ _ p hg
      simp [hv]

theorem add_entry_events_of_Callable (base : hash_table_base) (hash_table : hash_table_v2)
    (key : Key) (value : Nat) (h : Callable base hash_table key) :
    hash_table_v2_add_entry_events base hash_table key value =
      Except.ok
        { hash_table := write_list_head hash_table (bucket_index base key)
            (put_chain (chain hash_table (bucket_index base key)) key value)
          events := [Event.lock (bucket_index base key), Event.scan (bucket_index base key),
            Event.unlock (bucket_index base key)] } := by
  obtain ⟨hc, hi, hm⟩ := h
  have hne : base.HASH_TABLE_CAPACITY ≠ 0 := Nat.pos_iff_ne_zero.mp hc
  have hlen := mutex_length_of_some _ _ _ hm
  have hs := mutex_set_self _ _ _ hm
  unfold bucket_index at hi hm hlen hs
  cases hash_table with
  | mk entries bucket_mutexes =>
    simp only at hi hm hlen hs
    cases hg : get_list_entry
        entries[base.bernstein_hash key % base.HASH_TABLE_CAPACITY].list_head key with
    | none =>
      have hf := (get_list_entry_none _ _).mp hg
      simp [hash_table_v2_add_entry_events, get_hash_table_entry, lock_event, unlock_event,
        scan_event, pthread_mutex_lock, pthread_mutex_unlock, read_list_head, write_list_head,
        bind, Except.bind, hne, hi, hm, hlen, hs, chain, bucket_index, put_chain, hg, hf]
    | some p =>
      obtain ⟨v, hv, -, hw⟩ := get_list_entry_some _ _ p hg
      simp [hash_table_v2_add_entry_events, get_hash_table_entry, lock_event, unlock_event,
        scan_event, pthread_mutex_lock, pthread_mutex_unlock, read_list_head, write_list_head,
        bind, Except.bind, hne, hi, hm, hlen, hs, chain, bucket_index, put_chain, hg, hv, hw]

theorem get_value_events_of_Callable (base : hash_table_base) (hash_table : hash_table_v2)
    (key : Key) (h : Callable base hash_table key) :
    hash_table_v2_get_value_events base hash_table key =
      match find_value (chain hash_table (bucket_index base key)) key with
      | some v =>
        Except.ok (v,
          { hash_table := hash_table
            events := [Event.lock (bucket_index base key), Event.scan (bucket_index base key),
              Event.unlock (bucket_index base key)] })
      | none => Except.error Fault.assertion_failure := by
  obtain ⟨hc, hi, hm⟩ := h
  have hne : base.HASH_TABLE_CAPACITY ≠ 0 := Nat.pos_iff_ne_zero.mp hc
  have hlen := mutex_length_of_some _ _ _ hm
  have hs := mutex_set_self _ _ _ hm
  unfold bucket_index at hi hm hlen hs
  cases hash_table with
  | mk entries bucket_mutexes =>
    simp only at hi hm hlen hs
    cases hg : get_list_entry
        entries[base.bernstein_hash key % base.HASH_TABLE_CAPACITY].list_head key with
    | none =>
      have hf := (get_list_entry_none _ _).mp hg
      simp [hash_table_v2_get_value_events, get_hash_table_entry, lock_event, unlock_event,
        scan_event, pthread_mutex_lock, pthread_mutex_unlock, read_list_head, bind,
        Except.bind, hne, hi, hm, chain, bucket_index, hg, hf]
    | some p =>
      obtain ⟨v, hv, hrd, -⟩ := get_list_entry_some _ _ p hg
      simp [hash_table_v2_get_value_events, get_hash_table_entry, lock_event, unlock_event,
        scan_event, pthread_mutex_lock, pthread_mutex_unlock, read_list_head, bind,
        Except.bind, pure, Except.pure, hne, hi, hm, hlen, hs, chain, bucket_index, hg, hv, hrd]

theorem Callable_of_lock_event (base : hash_table_base) (hash_table : hash_table_v2)
    (key : Key) (index : Nat) (run : Run)
    (h1 : get_hash_table_entry base hash_table key = Except.ok index)
    (h2 : lock_event { hash_table := hash_table, events := [] } index = Except.ok run) :
    Callable base hash_table key := by
  unfold lock_event at h2
  cases h3 : pthread_mutex_lock hash_table index with
  | error f => simp [h3] at h2
  | ok locked => exact Callable_of_lock base hash_table key index locked h1 h3

theorem Callable_of_contains_events (base : hash_table_base) (hash_table : hash_table_v2)
    (key : Key) (r : Bool × Run)
    (h : hash_table_v2_contains_events base hash_table key = Except.ok r) :
    Callable base hash_table key := by
  unfold hash_table_v2_contains_events at h
  cases h1 : get_hash_table_entry base hash_table key with
  | error f => simp [h1, bind, Except.bind] at h
  | ok index =>
    cases h2 : lock_event { hash_table := hash_table, events := [] } index with
    | error f => simp [h1, h2, bind, Except.bind] at h
    | ok run => exact Callable_of_lock_event base hash_table key index run h1 h2

theorem Callable_of_add_entry_events (base : hash_table_base) (hash_table : hash_table_v2)
    (key : Key) (value : Nat) (r : Run)
    (h : hash_table_v2_add_entry_events base hash_table key value = Except.ok r) :
    Callable base hash_table key := by
  unfold hash_table_v2_add_entry_events at h
  cases h1 : get_hash_table_entry base hash_table key with
  | error f => simp [h1, bind, Except.bind] at h
  | ok index =>
    cases h2 : lock_event { hash_table := hash_table, events := [] } index with
    | error f => simp [h1, h2, bind, Except.bind] at h
    | ok run => exact Callable_of_lock_event base hash_table key index run h1 h2

theorem Callable_of_get_value_events (base : hash_table_base) (hash_table : hash_table_v2)
    (key : Key) (r : Nat × Run)
    (h : hash_table_v2_get_value_events base hash_table key = Except.ok r) :
    Callable base hash_table key := by
  unfold hash_table_v2_get_value_events at h
  cases h1 : get_hash_table_entry base hash_table key with
  | error f => simp [h1, bind, Except.bind] at h
  | ok index =>
    cases h2 : lock_event { hash_table := hash_table, events := [] } index with
    | error f => simp [h1, h2, bind, Except.bind] at h
    | ok run => exact Callable_of_lock_event base hash_table key index run h1 h2

theorem Discipline_of_events (index : Nat) (before after : hash_table_v2)
    (hm : after.bucket_mutexes = before.bucket_mutexes) :
    Discipline index before
      { hash_table := after
        events := [Event.lock index, Event.scan index, Event.unlock index] } := by
  refine ⟨rfl, ?_, ?_, hm⟩
  · intro n
    match n with
    | 0 => simp [locks_held]
    | 1 => simp [locks_held, hold]
    | 2 => simp [locks_held, hold]
    | n + 3 => simp [locks_held, hold]
  · simp [locks_held, hold]

/-! ### Two puts in a row -/

theorem write_list_head_twice (hash_table : hash_table_v2) (i : Nat)
    (first second : List list_entry) :
    write_list_head (write_list_head hash_table i first) i second =
      write_list_head hash_table i second := by
  simp [write_list_head]

theorem write_list_head_comm (hash_table : hash_table_v2) (i j : Nat)
    (first second : List list_entry) (h : i ≠ j) :
    write_list_head (write_list_head hash_table i first) j second =
      write_list_head (write_list_head hash_table j second) i first := by
  simp only [write_list_head]
  rw [List.set_comm _ _ _ h]

theorem put_all_Reachable (base : hash_table_base) (puts : List (Key × Nat)) :
    ∀ hash_table after : hash_table_v2, Reachable base hash_table →
      put_all base hash_table puts = Except.ok after → Reachable base after := by
  induction puts with
  | nil =>
    intro t after hr h
    simp only [put_all] at h
    cases h
    exact hr
  | cons p rest ih =>
    intro t after hr h
    obtain ⟨a, v⟩ := p
    simp only [put_all] at h
    cases h1 : hash_table_v2_add_entry base t a v with
    | error f =>
      rw [h1] at h
      exact Except.noConfusion h
    | ok next =>
      rw [h1] at h
      exact ih next after (Reachable.add_entry t next a v hr h1) h

theorem mem_table_keys_iff (base : hash_table_base) (hash_table : hash_table_v2) (key : Key)
    (hp : Placement base hash_table) :
    key ∈ table_keys hash_table ↔ (lookup base hash_table key).isSome := by
  unfold lookup
  rw [find_value_isSome, ← List.count_pos_iff, ← List.count_pos_iff,
    count_table_keys base hash_table key hp]
/-! ## The claims -/

/-- C1: for every hash function and positive capacity, every finite sequence of
puts on a freshly created table returns, and afterwards `contains(k)` returns
true exactly when `k` is the key of one of the puts; in particular it returns
false on the freshly created table. -/
theorem contains_iff_put (base : hash_table_base) (puts : List (Key × Nat)) (key : Key)
    (hc : 0 < base.HASH_TABLE_CAPACITY) :
    (∃ after, put_all base (hash_table_v2_create base) puts = Except.ok after ∧
      hash_table_v2_contains base after key =
        Except.ok (decide (key ∈ puts.map Prod.fst), after)) ∧
    hash_table_v2_contains base (hash_table_v2_create base) key =
      Except.ok (false, hash_table_v2_create base) := by
  constructor
  · obtain ⟨after, h1, h2, h3⟩ := after_puts base hc puts
    refine ⟨after, h1, ?_⟩
    rw [contains_of_lookup base after key h2 hc, h3 key]
    by_cases hm : key ∈ puts.map Prod.fst
    · have := (last_value_isSome puts key).mpr hm
      rw [this, decide_eq_true hm]
    · have : (last_value puts key).isSome = false := by
        cases hs : (last_value puts key).isSome with
        | false => rfl
        | true => exact absurd ((last_value_isSome puts key).mp hs) hm
      rw [this, decide_eq_false hm]
  · rw [contains_of_lookup base _ key (Ready_create base) hc, lookup_create]
    rfl

/-- Witness of C1: capacity 4, the length of the key as its hash, two puts. -/
theorem contains_iff_put_witness :
    0 < 4 ∧
    ((∃ after, put_all (hash_table_base.mk 4 String.length)
        (hash_table_v2_create (hash_table_base.mk 4 String.length))
        [("a", 1), ("b", 2)] = Except.ok after ∧
      hash_table_v2_contains (hash_table_base.mk 4 String.length) after "a" =
        Except.ok (decide ("a" ∈ [("a", 1), ("b", 2)].map Prod.fst), after)) ∧
    hash_table_v2_contains (hash_table_base.mk 4 String.length)
        (hash_table_v2_create (hash_table_base.mk 4 String.length)) "a" =
      Except.ok (false, hash_table_v2_create (hash_table_base.mk 4 String.length))) :=
  ⟨by decide, contains_iff_put (hash_table_base.mk 4 String.length) [("a", 1), ("b", 2)] "a"
    (by decide)⟩

/-- C2: for every hash function and positive capacity, after a sequence of puts
on a freshly created table in which the last put with key `k` has value `v`,
`get(k)` returns `v`. -/
theorem get_returns_last_put (base : hash_table_base) (pre post : List (Key × Nat))
    (key : Key) (value : Nat) (hc : 0 < base.HASH_TABLE_CAPACITY)
    (hlast : key ∉ post.map Prod.fst) :
    ∃ after, put_all base (hash_table_v2_create base) (pre ++ (key, value) :: post) =
        Except.ok after ∧
      hash_table_v2_get_value base after key = Except.ok (value, after) := by
  obtain ⟨after, h1, h2, h3⟩ := after_puts base hc (pre ++ (key, value) :: post)
  refine ⟨after, h1, ?_⟩
  apply get_value_of_lookup base after key value h2 hc
  rw [h3 key, last_value_append pre post key value hlast]

/-- Witness of C2: all keys collide in bucket 0 of 2; the key "a" is put twice. -/
theorem get_returns_last_put_witness :
    0 < 2 ∧ "a" ∉ [(("b" : Key), 5)].map Prod.fst ∧
    ∃ after, put_all (hash_table_base.mk 2 (fun _ => 0))
        (hash_table_v2_create (hash_table_base.mk 2 (fun _ => 0)))
        ([("a", 1), ("c", 9)] ++ ("a", 7) :: [("b", 5)]) = Except.ok after ∧
      hash_table_v2_get_value (hash_table_base.mk 2 (fun _ => 0)) after "a" =
        Except.ok (7, after) :=
  ⟨by decide, by decide,
    get_returns_last_put (hash_table_base.mk 2 (fun _ => 0)) [("a", 1), ("c", 9)]
      [("b", 5)] "a" 7 (by decide) (by decide)⟩

/-- C3: on every table a program can hold, `put(k, v1)` followed by `put(k, v2)`
leaves exactly one entry with key `k`, counted over all buckets, and `get(k)`
then returns `v2`. -/
theorem overwrite_leaves_one_entry (base : hash_table_base) (hash_table : hash_table_v2)
    (key : Key) (v1 v2 : Nat) (hr : Reachable base hash_table)
    (hc : 0 < base.HASH_TABLE_CAPACITY) :
    ∃ first second,
      hash_table_v2_add_entry base hash_table key v1 = Except.ok first ∧
      hash_table_v2_add_entry base first key v2 = Except.ok second ∧
      (table_keys second).count key = 1 ∧
      hash_table_v2_get_value base second key = Except.ok (v2, second) := by
  have h0 := Reachable_invariant base hash_table hr
  have e1 := hash_table_v2_add_entry_eq base hash_table key v1 h0.1 hc
  have hr1 := Reachable.add_entry hash_table _ key v1 hr e1
  have h1 := Reachable_invariant base _ hr1
  have e2 := hash_table_v2_add_entry_eq base _ key v2 h1.1 hc
  have hr2 := Reachable.add_entry _ _ key v2 hr1 e2
  have h2 := Reachable_invariant base _ hr2
  have hl := lookup_put base _ key key v2 (bucket_index_lt base _ key h1.1 hc)
  rw [if_pos rfl] at hl
  refine ⟨_, _, e1, e2, ?_, get_value_of_lookup base _ key v2 h2.1 hc hl⟩
  rw [count_table_keys base _ key h2.2.1]
  apply Nat.le_antisymm (h2.2.2 _ key)
  apply List.count_pos_iff.mpr
  apply (find_value_isSome _ key).mp
  unfold lookup at hl
  rw [hl]
  rfl

/-- Witness of C3: the key "a" is put twice in a one-bucket table that holds
"a" and "b". -/
theorem overwrite_leaves_one_entry_witness :
    Reachable (hash_table_base.mk 1 (fun _ => 0))
      { entries := [{ list_head := [{ key := "b", value := 2 }, { key := "a", value := 1 }] }]
        bucket_mutexes := [pthread_mutex_t.unlocked] } ∧
    0 < 1 ∧
    ∃ first second,
      hash_table_v2_add_entry (hash_table_base.mk 1 (fun _ => 0))
        { entries := [{ list_head := [{ key := "b", value := 2 }, { key := "a", value := 1 }] }]
          bucket_mutexes := [pthread_mutex_t.unlocked] } "a" 3 = Except.ok first ∧
      hash_table_v2_add_entry (hash_table_base.mk 1 (fun _ => 0)) first "a" 4 =
        Except.ok second ∧
      (table_keys second).count "a" = 1 ∧
      hash_table_v2_get_value (hash_table_base.mk 1 (fun _ => 0)) second "a" =
        Except.ok (4, second) :=
  have hr : Reachable (hash_table_base.mk 1 (fun _ => 0))
      { entries := [{ list_head := [{ key := "b", value := 2 }, { key := "a", value := 1 }] }]
        bucket_mutexes := [pthread_mutex_t.unlocked] } :=
    Reachable.add_entry
      { entries := [{ list_head := [{ key := "a", value := 1 }] }]
        bucket_mutexes := [pthread_mutex_t.unlocked] } _ "b" 2
      (Reachable.add_entry (hash_table_v2_create (hash_table_base.mk 1 (fun _ => 0))) _ "a" 1
        Reachable.create (by decide))
      (by decide)
  ⟨hr, by decide,
    overwrite_leaves_one_entry (hash_table_base.mk 1 (fun _ => 0)) _ "a" 3 4 hr (by decide)⟩

/-- C4: on every table a program can hold, a put of key `A` returns and leaves
the outcome of `get(B)` and of `contains(B)` as it was, for every key `B` other
than `A`, whatever the buckets of the two keys: the same value or the same
failure, the same truth value. -/
theorem put_keeps_other_keys (base : hash_table_base) (hash_table : hash_table_v2)
    (A B : Key) (value : Nat) (hr : Reachable base hash_table)
    (hc : 0 < base.HASH_TABLE_CAPACITY) (hne : B ≠ A) :
    ∃ after, hash_table_v2_add_entry base hash_table A value = Except.ok after ∧
      Except.map Prod.fst (hash_table_v2_get_value base after B) =
        Except.map Prod.fst (hash_table_v2_get_value base hash_table B) ∧
      Except.map Prod.fst (hash_table_v2_contains base after B) =
        Except.map Prod.fst (hash_table_v2_contains base hash_table B) := by
  have h0 := Reachable_invariant base hash_table hr
  have e1 := hash_table_v2_add_entry_eq base hash_table A value h0.1 hc
  have h1 := Reachable_invariant base _ (Reachable.add_entry hash_table _ A value hr e1)
  have hl := lookup_put base hash_table A B value (bucket_index_lt base _ A h0.1 hc)
  rw [if_neg hne] at hl
  refine ⟨_, e1, ?_, ?_⟩
  · rw [hash_table_v2_get_value_eq base _ B h1.1 hc,
      hash_table_v2_get_value_eq base _ B h0.1 hc]
    unfold lookup at hl
    rw [hl]
    cases find_value (chain hash_table (bucket_index base B)) B <;> rfl
  · rw [contains_of_lookup base _ B h1.1 hc, contains_of_lookup base _ B h0.1 hc, hl]
    rfl

/-- Witness of C4: "a" and "b" share the only bucket; "b" is present and is
put a new neighbour "a". -/
theorem put_keeps_other_keys_witness :
    Reachable (hash_table_base.mk 1 (fun _ => 0))
      { entries := [{ list_head := [{ key := "b", value := 2 }] }]
        bucket_mutexes := [pthread_mutex_t.unlocked] } ∧
    0 < 1 ∧ ("b" : Key) ≠ "a" ∧
    ∃ after,
      hash_table_v2_add_entry (hash_table_base.mk 1 (fun _ => 0))
        { entries := [{ list_head := [{ key := "b", value := 2 }] }]
          bucket_mutexes := [pthread_mutex_t.unlocked] } "a" 7 = Except.ok after ∧
      Except.map Prod.fst
          (hash_table_v2_get_value (hash_table_base.mk 1 (fun _ => 0)) after "b") =
        Except.map Prod.fst
          (hash_table_v2_get_value (hash_table_base.mk 1 (fun _ => 0))
            { entries := [{ list_head := [{ key := "b", value := 2 }] }]
              bucket_mutexes := [pthread_mutex_t.unlocked] } "b") ∧
      Except.map Prod.fst
          (hash_table_v2_contains (hash_table_base.mk 1 (fun _ => 0)) after "b") =
        Except.map Prod.fst
          (hash_table_v2_contains (hash_table_base.mk 1 (fun _ => 0))
            { entries := [{ list_head := [{ key := "b", value := 2 }] }]
              bucket_mutexes := [pthread_mutex_t.unlocked] } "b") :=
  have hr : Reachable (hash_table_base.mk 1 (fun _ => 0))
      { entries := [{ list_head := [{ key := "b", value := 2 }] }]
        bucket_mutexes := [pthread_mutex_t.unlocked] } :=
    Reachable.add_entry (hash_table_v2_create (hash_table_base.mk 1 (fun _ => 0))) _ "b" 2
      Reachable.create (by decide)
  ⟨hr, by decide, by decide,
    put_keeps_other_keys (hash_table_base.mk 1 (fun _ => 0)) _ "a" "b" 7 hr (by decide)
      (by decide)⟩

/-- C5: on every table a program can hold, `contains(k)` returns, and `get(k)`
stops on its assertion exactly when `contains(k)` returns false; when
`contains(k)` returns true, `get(k)` returns a value. -/
theorem get_fails_iff_not_contains (base : hash_table_base) (hash_table : hash_table_v2)
    (key : Key) (hr : Reachable base hash_table) (hc : 0 < base.HASH_TABLE_CAPACITY) :
    ∃ result, hash_table_v2_contains base hash_table key = Except.ok (result, hash_table) ∧
      (hash_table_v2_get_value base hash_table key = Except.error Fault.assertion_failure ↔
        result = false) ∧
      (result = true →
        ∃ value, hash_table_v2_get_value base hash_table key =
          Except.ok (value, hash_table)) := by
  have h0 := Reachable_invariant base hash_table hr
  refine ⟨_, contains_of_lookup base hash_table key h0.1 hc, ?_, ?_⟩
  · cases hl : lookup base hash_table key with
    | none =>
      rw [get_value_of_lookup_none base hash_table key h0.1 hc hl]
      simp
    | some v =>
      rw [get_value_of_lookup base hash_table key v h0.1 hc hl]
      simp
  · intro hres
    cases hl : lookup base hash_table key with
    | none =>
      rw [hl] at hres
      exact Bool.noConfusion hres
    | some v => exact ⟨v, get_value_of_lookup base hash_table key v h0.1 hc hl⟩

/-- Witness of C5: a table of two buckets that holds "a"; the key asked for is
"zz", which is absent. -/
theorem get_fails_iff_not_contains_witness :
    Reachable (hash_table_base.mk 2 String.length)
      { entries := [{ list_head := [] }, { list_head := [{ key := "a", value := 1 }] }]
        bucket_mutexes := [pthread_mutex_t.unlocked, pthread_mutex_t.unlocked] } ∧
    0 < 2 ∧
    ∃ result,
      hash_table_v2_contains (hash_table_base.mk 2 String.length)
        { entries := [{ list_head := [] }, { list_head := [{ key := "a", value := 1 }] }]
          bucket_mutexes := [pthread_mutex_t.unlocked, pthread_mutex_t.unlocked] } "zz" =
        Except.ok (result,
          { entries := [{ list_head := [] }, { list_head := [{ key := "a", value := 1 }] }]
            bucket_mutexes := [pthread_mutex_t.unlocked, pthread_mutex_t.unlocked] }) ∧
      (hash_table_v2_get_value (hash_table_base.mk 2 String.length)
        { entries := [{ list_head := [] }, { list_head := [{ key := "a", value := 1 }] }]
          bucket_mutexes := [pthread_mutex_t.unlocked, pthread_mutex_t.unlocked] } "zz" =
        Except.error Fault.assertion_failure ↔ result = false) ∧
      (result = true →
        ∃ value, hash_table_v2_get_value (hash_table_base.mk 2 String.length)
          { entries := [{ list_head := [] }, { list_head := [{ key := "a", value := 1 }] }]
            bucket_mutexes := [pthread_mutex_t.unlocked, pthread_mutex_t.unlocked] } "zz" =
          Except.ok (value,
            { entries := [{ list_head := [] }, { list_head := [{ key := "a", value := 1 }] }]
              bucket_mutexes := [pthread_mutex_t.unlocked, pthread_mutex_t.unlocked] })) :=
  have hr : Reachable (hash_table_base.mk 2 String.length)
      { entries := [{ list_head := [] }, { list_head := [{ key := "a", value := 1 }] }]
        bucket_mutexes := [pthread_mutex_t.unlocked, pthread_mutex_t.unlocked] } :=
    Reachable.add_entry (hash_table_v2_create (hash_table_base.mk 2 String.length)) _ "a" 1
      Reachable.create (by decide)
  ⟨hr, by decide,
    get_fails_iff_not_contains (hash_table_base.mk 2 String.length) _ "zz" hr (by decide)⟩

/-- C6: with capacity 4 and any hash function, after `put("a",1)`, `put("b",2)`,
`put("a",3)` on a freshly created table, `contains("a")` is true, `get("a")` is
3, `get("b")` is 2 and `contains("c")` is false. -/
theorem example_trace (hash : Key → Nat) :
    ∃ after,
      put_all (hash_table_base.mk 4 hash) (hash_table_v2_create (hash_table_base.mk 4 hash))
        [("a", 1), ("b", 2), ("a", 3)] = Except.ok after ∧
      hash_table_v2_contains (hash_table_base.mk 4 hash) after "a" = Except.ok (true, after) ∧
      hash_table_v2_get_value (hash_table_base.mk 4 hash) after "a" = Except.ok (3, after) ∧
      hash_table_v2_get_value (hash_table_base.mk 4 hash) after "b" = Except.ok (2, after) ∧
      hash_table_v2_contains (hash_table_base.mk 4 hash) after "c" =
        Except.ok (false, after) := by
  have hc : 0 < (hash_table_base.mk 4 hash).HASH_TABLE_CAPACITY := Nat.succ_pos 3
  obtain ⟨after, h1, h2, h3⟩ :=
    after_puts (hash_table_base.mk 4 hash) hc [("a", 1), ("b", 2), ("a", 3)]
  have ha : lookup (hash_table_base.mk 4 hash) after "a" = some 3 := by
    rw [h3 "a"]; decide
  have hb : lookup (hash_table_base.mk 4 hash) after "b" = some 2 := by
    rw [h3 "b"]; decide
  have hn : lookup (hash_table_base.mk 4 hash) after "c" = none := by
    rw [h3 "c"]; decide
  refine ⟨after, h1, ?_, ?_, ?_, ?_⟩
  · rw [contains_of_lookup _ after "a" h2 hc, ha]
    rfl
  · exact get_value_of_lookup _ after "a" 3 h2 hc ha
  · exact get_value_of_lookup _ after "b" 2 h2 hc hb
  · rw [contains_of_lookup _ after "c" h2 hc, hn]
    rfl

/-- C7: the table `hash_table_v2_create` returns has no two entries with equal
keys, nor has any table a program can hold, and so a put, a contains or a get
on such a table leaves a table without two entries with equal keys. -/
theorem key_unique_invariant (base : hash_table_base) (hash_table : hash_table_v2)
    (hr : Reachable base hash_table) :
    KeyUnique (hash_table_v2_create base) ∧ KeyUnique hash_table ∧
    (∀ key value after,
      hash_table_v2_add_entry base hash_table key value = Except.ok after →
      KeyUnique after) ∧
    (∀ key result after,
      hash_table_v2_contains base hash_table key = Except.ok (result, after) →
      KeyUnique after) ∧
    (∀ key value after,
      hash_table_v2_get_value base hash_table key = Except.ok (value, after) →
      KeyUnique after) := by
  have hu : ∀ t, Reachable base t → KeyUnique t := by
    intro t ht
    have h := Reachable_invariant base t ht
    exact KeyUnique_of_invariant base t h.2.1 h.2.2
  refine ⟨hu _ Reachable.create, hu _ hr, ?_, ?_, ?_⟩
  · intro key value after h
    exact hu _ (Reachable.add_entry hash_table after key value hr h)
  · intro key result after h
    exact hu _ (Reachable.contains hash_table after key result hr h)
  · intro key value after h
    exact hu _ (Reachable.get_value hash_table after key value hr h)

/-- Witness of C7: a one-bucket table that holds "a" and "b". -/
theorem key_unique_invariant_witness :
    Reachable (hash_table_base.mk 1 (fun _ => 0))
      { entries := [{ list_head := [{ key := "b", value := 2 }, { key := "a", value := 1 }] }]
        bucket_mutexes := [pthread_mutex_t.unlocked] } ∧
    KeyUnique (hash_table_v2_create (hash_table_base.mk 1 (fun _ => 0))) ∧
    KeyUnique
      { entries := [{ list_head := [{ key := "b", value := 2 }, { key := "a", value := 1 }] }]
        bucket_mutexes := [pthread_mutex_t.unlocked] } ∧
    (∀ key value after,
      hash_table_v2_add_entry (hash_table_base.mk 1 (fun _ => 0))
        { entries := [{ list_head := [{ key := "b", value := 2 }, { key := "a", value := 1 }] }]
          bucket_mutexes := [pthread_mutex_t.unlocked] } key value = Except.ok after →
      KeyUnique after) ∧
    (∀ key result after,
      hash_table_v2_contains (hash_table_base.mk 1 (fun _ => 0))
        { entries := [{ list_head := [{ key := "b", value := 2 }, { key := "a", value := 1 }] }]
          bucket_mutexes := [pthread_mutex_t.unlocked] } key = Except.ok (result, after) →
      KeyUnique after) ∧
    (∀ key value after,
      hash_table_v2_get_value (hash_table_base.mk 1 (fun _ => 0))
        { entries := [{ list_head := [{ key := "b", value := 2 }, { key := "a", value := 1 }] }]
          bucket_mutexes := [pthread_mutex_t.unlocked] } key = Except.ok (value, after) →
      KeyUnique after) :=
  have hr : Reachable (hash_table_base.mk 1 (fun _ => 0))
      { entries := [{ list_head := [{ key := "b", value := 2 }, { key := "a", value := 1 }] }]
        bucket_mutexes := [pthread_mutex_t.unlocked] } :=
    Reachable.add_entry
      { entries := [{ list_head := [{ key := "a", value := 1 }] }]
        bucket_mutexes := [pthread_mutex_t.unlocked] } _ "b" 2
      (Reachable.add_entry (hash_table_v2_create (hash_table_base.mk 1 (fun _ => 0))) _ "a" 1
        Reachable.create (by decide))
      (by decide)
  ⟨hr, key_unique_invariant (hash_table_base.mk 1 (fun _ => 0)) _ hr⟩

/-- C8: in the table `hash_table_v2_create` returns every entry of the chain of
bucket `i` has a key whose hash modulo the capacity is `i`, and a put on a
table of which this holds leaves a table of which it holds. -/
theorem placement_invariant (base : hash_table_base) :
    Placement base (hash_table_v2_create base) ∧
    ∀ hash_table key value after, Placement base hash_table →
      hash_table_v2_add_entry base hash_table key value = Except.ok after →
      Placement base after :=
  ⟨Placement_create base, fun hash_table key value after hp h =>
    Placement_add_entry base hash_table after key value hp h⟩

/-- Witness of C8: a put of "a", of hash 1, on the fresh table of two buckets. -/
theorem placement_invariant_witness :
    Placement (hash_table_base.mk 2 String.length)
      (hash_table_v2_create (hash_table_base.mk 2 String.length)) ∧
    hash_table_v2_add_entry (hash_table_base.mk 2 String.length)
      (hash_table_v2_create (hash_table_base.mk 2 String.length)) "a" 1 =
      Except.ok
        { entries := [{ list_head := [] }, { list_head := [{ key := "a", value := 1 }] }]
          bucket_mutexes := [pthread_mutex_t.unlocked, pthread_mutex_t.unlocked] } ∧
    Placement (hash_table_base.mk 2 String.length)
      { entries := [{ list_head := [] }, { list_head := [{ key := "a", value := 1 }] }]
        bucket_mutexes := [pthread_mutex_t.unlocked, pthread_mutex_t.unlocked] } :=
  ⟨(placement_invariant (hash_table_base.mk 2 String.length)).1, by decide,
    (placement_invariant (hash_table_base.mk 2 String.length)).2 _ "a" 1 _
      (placement_invariant (hash_table_base.mk 2 String.length)).1 (by decide)⟩

/-- C9, as stated, fails: `hash_table_v2_create` has no parameter, and the
number of buckets is the constant `HASH_TABLE_CAPACITY` of the build. In a build
where the constant is 8 the table has 8 buckets, so not `c` buckets for every
positive `c`: not 4. Whatever the constant, some positive `c` is not the
number of buckets. -/
theorem create_capacity_is_the_constant :
    (hash_table_v2_create (hash_table_base.mk 8 (fun _ => 0))).entries.length = 8 ∧
    (¬ ∀ c : Nat, 0 < c →
      (hash_table_v2_create (hash_table_base.mk 8 (fun _ => 0))).entries.length = c) ∧
    ∀ base : hash_table_base, ∃ c : Nat, 0 < c ∧
      (hash_table_v2_create base).entries.length ≠ c := by
  refine ⟨by decide, ?_, ?_⟩
  · intro h
    have h4 := h 4 (by decide)
    revert h4
    decide
  · intro base
    refine ⟨base.HASH_TABLE_CAPACITY + 1, Nat.succ_pos _, ?_⟩
    rw [hash_table_v2_create_eq]
    simp

/-- C9, amended: `hash_table_v2_create` takes no capacity; it returns a table
of exactly `HASH_TABLE_CAPACITY` buckets, every one of them empty, with as many
mutexes, none of them held. -/
theorem create_buckets (base : hash_table_base) :
    (hash_table_v2_create base).entries.length = base.HASH_TABLE_CAPACITY ∧
    (∀ hash_table_entry ∈ (hash_table_v2_create base).entries,
      hash_table_entry.list_head = []) ∧
    (hash_table_v2_create base).bucket_mutexes =
      List.replicate base.HASH_TABLE_CAPACITY pthread_mutex_t.unlocked := by
  rw [hash_table_v2_create_eq]
  refine ⟨by simp, ?_, rfl⟩
  intro b hb
  rw [List.eq_of_mem_replicate hb]

/-- C11: on every table a program can hold, a put of a key `k` that is present
returns and leaves as many buckets; the chain of every bucket is the chain
before with, entry for entry and in the same order, the value `v` in the entry
whose key is `k` and every other entry as it was, so with the same length and
the same keys; and there is one entry with key `k` in the table. -/
theorem update_in_place (base : hash_table_base) (hash_table : hash_table_v2) (key : Key)
    (value : Nat) (hr : Reachable base hash_table)
    (hpresent : hash_table_v2_contains base hash_table key = Except.ok (true, hash_table)) :
    ∃ after, hash_table_v2_add_entry base hash_table key value = Except.ok after ∧
      after.entries.length = hash_table.entries.length ∧
      (∀ i, chain after i =
        (chain hash_table i).map (fun list_entry =>
          if list_entry.key = key then { list_entry with value := value } else list_entry)) ∧
      (∀ i, (chain after i).length = (chain hash_table i).length ∧
        (chain after i).map (fun list_entry => list_entry.key) =
          (chain hash_table i).map (fun list_entry => list_entry.key)) ∧
      (table_keys hash_table).count key = 1 ∧ (table_keys after).count key = 1 := by
  have h0 := Reachable_invariant base hash_table hr
  have hcall := Callable_of_contains base hash_table key _ hpresent
  have hfound : (find_value (chain hash_table (bucket_index base key)) key).isSome = true :=
    (contains_returns base hash_table hash_table key true hpresent).2.symm
  have e1 := add_entry_of_Callable base hash_table key value hcall
  have h1 := Reachable_invariant base _ (Reachable.add_entry hash_table _ key value hr e1)
  have hchain := chain_after_update base hash_table key value h0.2.1 h0.2.2 hcall.2.1 hfound
  have hfound2 : (find_value (chain (write_list_head hash_table (bucket_index base key)
      (put_chain (chain hash_table (bucket_index base key)) key value))
      (bucket_index base key)) key).isSome = true := by
    rw [chain_write_list_head _ _ _ _ hcall.2.1, if_pos rfl, find_value_put_chain, if_pos rfl]
    rfl
  refine ⟨_, e1, by simp [write_list_head], hchain, ?_,
    count_present base hash_table key h0.2.1 h0.2.2 hfound,
    count_present base _ key h1.2.1 h1.2.2 hfound2⟩
  intro i
  rw [hchain i]
  constructor
  · rw [List.length_map]
  · rw [List.map_map]
    apply List.map_congr_left
    intro e _
    by_cases hk : e.key = key
    · simp [hk]
    · simp [hk]

/-- Witness of C11: "a" and "b" share the only bucket; "a", the second of the
chain, is put the value 9. -/
theorem update_in_place_witness :
    Reachable (hash_table_base.mk 1 (fun _ => 0))
      { entries := [{ list_head := [{ key := "b", value := 2 }, { key := "a", value := 1 }] }]
        bucket_mutexes := [pthread_mutex_t.unlocked] } ∧
    hash_table_v2_contains (hash_table_base.mk 1 (fun _ => 0))
      { entries := [{ list_head := [{ key := "b", value := 2 }, { key := "a", value := 1 }] }]
        bucket_mutexes := [pthread_mutex_t.unlocked] } "a" =
      Except.ok (true,
        { entries := [{ list_head := [{ key := "b", value := 2 }, { key := "a", value := 1 }] }]
          bucket_mutexes := [pthread_mutex_t.unlocked] }) ∧
    hash_table_v2_add_entry (hash_table_base.mk 1 (fun _ => 0))
      { entries := [{ list_head := [{ key := "b", value := 2 }, { key := "a", value := 1 }] }]
        bucket_mutexes := [pthread_mutex_t.unlocked] } "a" 9 =
      Except.ok
        { entries := [{ list_head := [{ key := "b", value := 2 }, { key := "a", value := 9 }] }]
          bucket_mutexes := [pthread_mutex_t.unlocked] } ∧
    ∃ after,
      hash_table_v2_add_entry (hash_table_base.mk 1 (fun _ => 0))
        { entries := [{ list_head := [{ key := "b", value := 2 }, { key := "a", value := 1 }] }]
          bucket_mutexes := [pthread_mutex_t.unlocked] } "a" 9 = Except.ok after ∧
      after.entries.length = 1 ∧
      (∀ i, chain after i =
        (chain
          { entries :=
              [{ list_head := [{ key := "b", value := 2 }, { key := "a", value := 1 }] }]
            bucket_mutexes := [pthread_mutex_t.unlocked] } i).map
          (fun list_entry =>
            if list_entry.key = "a" then { list_entry with value := 9 } else list_entry)) ∧
      (∀ i, (chain after i).length =
          (chain
            { entries :=
                [{ list_head := [{ key := "b", value := 2 }, { key := "a", value := 1 }] }]
              bucket_mutexes := [pthread_mutex_t.unlocked] } i).length ∧
        (chain after i).map (fun list_entry => list_entry.key) =
          (chain
            { entries :=
                [{ list_head := [{ key := "b", value := 2 }, { key := "a", value := 1 }] }]
              bucket_mutexes := [pthread_mutex_t.unlocked] } i).map
            (fun list_entry => list_entry.key)) ∧
      (table_keys
        { entries := [{ list_head := [{ key := "b", value := 2 }, { key := "a", value := 1 }] }]
          bucket_mutexes := [pthread_mutex_t.unlocked] }).count "a" = 1 ∧
      (table_keys after).count "a" = 1 :=
  have hr : Reachable (hash_table_base.mk 1 (fun _ => 0))
      { entries := [{ list_head := [{ key := "b", value := 2 }, { key := "a", value := 1 }] }]
        bucket_mutexes := [pthread_mutex_t.unlocked] } :=
    Reachable.add_entry
      { entries := [{ list_head := [{ key := "a", value := 1 }] }]
        bucket_mutexes := [pthread_mutex_t.unlocked] } _ "b" 2
      (Reachable.add_entry (hash_table_v2_create (hash_table_base.mk 1 (fun _ => 0))) _ "a" 1
        Reachable.create (by decide))
      (by decide)
  ⟨hr, by decide, by decide,
    update_in_place (hash_table_base.mk 1 (fun _ => 0)) _ "a" 9 hr (by decide)⟩

/-- C12: a put of key `k` that returns, on any table, leaves as many buckets
and leaves every bucket with an index other than `hash(k) mod capacity` as it
was: the same entries in the same order with the same values. -/
theorem put_changes_one_bucket (base : hash_table_base) (hash_table after : hash_table_v2)
    (key : Key) (value : Nat)
    (h : hash_table_v2_add_entry base hash_table key value = Except.ok after) :
    after.entries.length = hash_table.entries.length ∧
    ∀ i, i ≠ base.bernstein_hash key % base.HASH_TABLE_CAPACITY →
      after.entries[i]? = hash_table.entries[i]? ∧ chain after i = chain hash_table i := by
  have hcall := Callable_of_add_entry base hash_table key value after h
  have he := add_entry_returns base hash_table after key value h
  subst he
  refine ⟨by simp [write_list_head], ?_⟩
  intro i hi
  have hne : ¬ bucket_index base key = i := fun hh => hi hh.symm
  constructor
  · simp [write_list_head, hne]
  · rw [chain_write_list_head _ _ _ _ hcall.2.1, if_neg (fun hh => hne hh.symm)]

/-- Witness of C12: in the table of three buckets that holds "a" in bucket 1
and "bb" in bucket 2, "cc" is put in bucket 2. -/
theorem put_changes_one_bucket_witness :
    hash_table_v2_add_entry three_buckets table_a_bb "cc" 3 = Except.ok table_a_bb_cc ∧
    table_a_bb_cc.entries.length = table_a_bb.entries.length ∧
    ∀ i, i ≠ three_buckets.bernstein_hash "cc" % three_buckets.HASH_TABLE_CAPACITY →
      table_a_bb_cc.entries[i]? = table_a_bb.entries[i]? ∧
      chain table_a_bb_cc i = chain table_a_bb i :=
  ⟨by decide, put_changes_one_bucket three_buckets table_a_bb table_a_bb_cc "cc" 3 (by decide)⟩

/-- C13: a call of contains that returns, and a call of get that returns, on
any table, leaves every bucket, and every mutex, as it was before the call. -/
theorem lookups_are_read_only (base : hash_table_base) (hash_table : hash_table_v2)
    (key : Key) :
    (∀ result after,
      hash_table_v2_contains base hash_table key = Except.ok (result, after) →
      after.entries = hash_table.entries ∧
        after.bucket_mutexes = hash_table.bucket_mutexes) ∧
    (∀ value after,
      hash_table_v2_get_value base hash_table key = Except.ok (value, after) →
      after.entries = hash_table.entries ∧
        after.bucket_mutexes = hash_table.bucket_mutexes) := by
  constructor
  · intro result after h
    rw [(contains_returns base hash_table after key result h).1]
    exact ⟨rfl, rfl⟩
  · intro value after h
    rw [(get_value_returns base hash_table after key value h).1]
    exact ⟨rfl, rfl⟩

/-- Witness of C13: contains and get of "a" on the one-bucket table that holds
"b" and "a" return and leave the table as it was. -/
theorem lookups_are_read_only_witness :
    hash_table_v2_contains one_bucket table_b_a "a" = Except.ok (true, table_b_a) ∧
    hash_table_v2_get_value one_bucket table_b_a "a" = Except.ok (1, table_b_a) ∧
    (table_b_a.entries = table_b_a.entries ∧
      table_b_a.bucket_mutexes = table_b_a.bucket_mutexes) ∧
    (table_b_a.entries = table_b_a.entries ∧
      table_b_a.bucket_mutexes = table_b_a.bucket_mutexes) :=
  ⟨by decide, by decide,
    (lookups_are_read_only one_bucket table_b_a "a").1 true table_b_a (by decide),
    (lookups_are_read_only one_bucket table_b_a "a").2 1 table_b_a (by decide)⟩

/-- C14: for every call of contains, put and get that returns, on any table,
the record of the call is: the mutex of bucket `hash(key) mod capacity` is
taken, then the chain of that bucket is scanned, then that mutex is released,
and nothing else; so one lock is taken, and before the scan, at no point of
the call are two locks held, none is held when the call returns, on either
path of put, and the mutexes of the table are as they were before the call. -/
theorem lock_discipline (base : hash_table_base) (hash_table : hash_table_v2) (key : Key)
    (value : Nat) :
    (∀ result after,
      hash_table_v2_contains base hash_table key = Except.ok (result, after) →
      ∃ run, hash_table_v2_contains_events base hash_table key = Except.ok (result, run) ∧
        run.hash_table = after ∧
        Discipline (base.bernstein_hash key % base.HASH_TABLE_CAPACITY) hash_table run) ∧
    (∀ after,
      hash_table_v2_add_entry base hash_table key value = Except.ok after →
      ∃ run, hash_table_v2_add_entry_events base hash_table key value = Except.ok run ∧
        run.hash_table = after ∧
        Discipline (base.bernstein_hash key % base.HASH_TABLE_CAPACITY) hash_table run) ∧
    (∀ found after,
      hash_table_v2_get_value base hash_table key = Except.ok (found, after) →
      ∃ run, hash_table_v2_get_value_events base hash_table key = Except.ok (found, run) ∧
        run.hash_table = after ∧
        Discipline (base.bernstein_hash key % base.HASH_TABLE_CAPACITY) hash_table run) := by
  refine ⟨?_, ?_, ?_⟩
  · intro result after h
    have hcall := Callable_of_contains base hash_table key _ h
    obtain ⟨h1, h2⟩ := contains_returns base hash_table after key result h
    subst h1
    rw [contains_events_of_Callable base after key hcall, h2]
    exact ⟨_, rfl, rfl, Discipline_of_events _ after after rfl⟩
  · intro after h
    have hcall := Callable_of_add_entry base hash_table key value _ h
    have h1 := add_entry_returns base hash_table after key value h
    rw [add_entry_events_of_Callable base hash_table key value hcall, h1]
    exact ⟨_, rfl, rfl, Discipline_of_events _ hash_table _ rfl⟩
  · intro found after h
    have hcall := Callable_of_get_value base hash_table key _ h
    obtain ⟨h1, h2⟩ := get_value_returns base hash_table after key found h
    subst h1
    rw [get_value_events_of_Callable base after key hcall, h2]
    exact ⟨_, rfl, rfl, Discipline_of_events _ after after rfl⟩

/-- Witness of C14: on the one-bucket table that holds "b" and "a", contains of
"a", the put of 5 for "a", which is there already, and get of "a" return. -/
theorem lock_discipline_witness :
    hash_table_v2_contains one_bucket table_b_a "a" = Except.ok (true, table_b_a) ∧
    hash_table_v2_add_entry one_bucket table_b_a "a" 5 = Except.ok table_b_a5 ∧
    hash_table_v2_get_value one_bucket table_b_a "a" = Except.ok (1, table_b_a) ∧
    (∃ run, hash_table_v2_contains_events one_bucket table_b_a "a" = Except.ok (true, run) ∧
      run.hash_table = table_b_a ∧
      Discipline (one_bucket.bernstein_hash "a" % one_bucket.HASH_TABLE_CAPACITY)
        table_b_a run) ∧
    (∃ run, hash_table_v2_add_entry_events one_bucket table_b_a "a" 5 = Except.ok run ∧
      run.hash_table = table_b_a5 ∧
      Discipline (one_bucket.bernstein_hash "a" % one_bucket.HASH_TABLE_CAPACITY)
        table_b_a run) ∧
    (∃ run, hash_table_v2_get_value_events one_bucket table_b_a "a" = Except.ok (1, run) ∧
      run.hash_table = table_b_a ∧
      Discipline (one_bucket.bernstein_hash "a" % one_bucket.HASH_TABLE_CAPACITY)
        table_b_a run) :=
  ⟨by decide, by decide, by decide,
    (lock_discipline one_bucket table_b_a "a" 5).1 true table_b_a (by decide),
    (lock_discipline one_bucket table_b_a "a" 5).2.1 table_b_a5 (by decide),
    (lock_discipline one_bucket table_b_a "a" 5).2.2 1 table_b_a (by decide)⟩

/-- C15: on every table a program can hold, `put(k, v)` returns, and a second
`put(k, v)` right after it returns the very table the first one left: every
chain entry for entry, and every mutex. -/
theorem put_twice_is_put_once (base : hash_table_base) (hash_table : hash_table_v2)
    (key : Key) (value : Nat) (hr : Reachable base hash_table)
    (hc : 0 < base.HASH_TABLE_CAPACITY) :
    ∃ once, hash_table_v2_add_entry base hash_table key value = Except.ok once ∧
      hash_table_v2_add_entry base once key value = Except.ok once := by
  have h0 := Reachable_invariant base hash_table hr
  have hi := bucket_index_lt base hash_table key h0.1 hc
  have e1 := hash_table_v2_add_entry_eq base hash_table key value h0.1 hc
  have h1 := Reachable_invariant base _ (Reachable.add_entry hash_table _ key value hr e1)
  refine ⟨_, e1, ?_⟩
  rw [hash_table_v2_add_entry_eq base _ key value h1.1 hc, chain_write_list_head _ _ _ _ hi,
    if_pos rfl, put_chain_put_chain, write_list_head_twice]

/-- Witness of C15: `put("c", 3)` on the one-bucket table that holds "b" and
"a". -/
theorem put_twice_is_put_once_witness :
    Reachable one_bucket table_b_a ∧ 0 < one_bucket.HASH_TABLE_CAPACITY ∧
    hash_table_v2_add_entry one_bucket table_b_a "c" 3 = Except.ok table_c_b_a ∧
    ∃ once, hash_table_v2_add_entry one_bucket table_b_a "c" 3 = Except.ok once ∧
      hash_table_v2_add_entry one_bucket once "c" 3 = Except.ok once :=
  ⟨Reachable_table_b_a, by decide, by decide,
    put_twice_is_put_once one_bucket table_b_a "c" 3 Reachable_table_b_a (by decide)⟩

/-- C16: on any table on which contains of `k` returns false, `put(k, v)`
returns; the chain of bucket `hash(k) mod capacity` is then the entry `(k, v)`
followed by the chain as it was, and the table has one entry more. -/
theorem new_key_goes_to_the_head (base : hash_table_base) (hash_table : hash_table_v2)
    (key : Key) (value : Nat)
    (habsent : hash_table_v2_contains base hash_table key = Except.ok (false, hash_table)) :
    ∃ after, hash_table_v2_add_entry base hash_table key value = Except.ok after ∧
      after.entries[base.bernstein_hash key % base.HASH_TABLE_CAPACITY]? =
        some { list_head :=
          ({ key := key, value := value } ::
            chain hash_table (base.bernstein_hash key % base.HASH_TABLE_CAPACITY)) } ∧
      (all_entries after).length = (all_entries hash_table).length + 1 := by
  have hcall := Callable_of_contains base hash_table key _ habsent
  have hnone : (find_value (chain hash_table (bucket_index base key)) key).isSome = false :=
    (contains_returns base hash_table hash_table key false habsent).2.symm
  have hput : put_chain (chain hash_table (bucket_index base key)) key value =
      { key := key, value := value } :: chain hash_table (bucket_index base key) := by
    unfold put_chain
    rw [hnone]
    rfl
  refine ⟨_, add_entry_of_Callable base hash_table key value hcall, ?_, ?_⟩
  · have hi := hcall.2.1
    unfold bucket_index at hi hput
    simp [write_list_head, bucket_index, hi, hput]
  · have hlen := length_all_entries_write hash_table (bucket_index base key)
      (put_chain (chain hash_table (bucket_index base key)) key value) hcall.2.1
    rw [hput, List.length_cons] at hlen
    rw [hput]
    omega

/-- Witness of C16: "c" is put in the one-bucket table that holds "b" and "a". -/
theorem new_key_goes_to_the_head_witness :
    hash_table_v2_contains one_bucket table_b_a "c" = Except.ok (false, table_b_a) ∧
    ∃ after, hash_table_v2_add_entry one_bucket table_b_a "c" 3 = Except.ok after ∧
      after.entries[one_bucket.bernstein_hash "c" % one_bucket.HASH_TABLE_CAPACITY]? =
        some { list_head :=
          ({ key := "c", value := 3 } ::
            chain table_b_a
              (one_bucket.bernstein_hash "c" % one_bucket.HASH_TABLE_CAPACITY)) } ∧
      (all_entries after).length = (all_entries table_b_a).length + 1 :=
  ⟨by decide, new_key_goes_to_the_head one_bucket table_b_a "c" 3 (by decide)⟩

/-- C17: for every hash function and positive capacity, after a finite sequence
of puts on a freshly created table the number of entries, over all chains, is
the number of distinct keys of the sequence. -/
theorem entry_count_is_distinct_keys (base : hash_table_base) (puts : List (Key × Nat))
    (hc : 0 < base.HASH_TABLE_CAPACITY) :
    ∃ after, put_all base (hash_table_v2_create base) puts = Except.ok after ∧
      (all_entries after).length = (puts.map Prod.fst).dedup.length := by
  obtain ⟨after, h1, _, h3⟩ := after_puts base hc puts
  have hr := put_all_Reachable base puts _ after Reachable.create h1
  have hinv := Reachable_invariant base after hr
  have hnodup : (table_keys after).Nodup :=
    KeyUnique_of_invariant base after hinv.2.1 hinv.2.2
  have hperm : List.Perm (table_keys after) (puts.map Prod.fst).dedup := by
    rw [List.perm_ext_iff_of_nodup hnodup (List.nodup_dedup _)]
    intro key
    rw [mem_table_keys_iff base after key hinv.2.1, h3 key, last_value_isSome,
      List.mem_dedup]
  refine ⟨after, h1, ?_⟩
  rw [← hperm.length_eq]
  simp [table_keys]

/-- Witness of C17: four puts of three keys, "a" twice, with all keys in the
one bucket. -/
theorem entry_count_is_distinct_keys_witness :
    0 < one_bucket.HASH_TABLE_CAPACITY ∧
    put_all one_bucket (hash_table_v2_create one_bucket)
      [("a", 1), ("b", 2), ("a", 5), ("c", 3)] =
      Except.ok
        { entries := [{ list_head := [{ key := "c", value := 3 }, { key := "b", value := 2 },
            { key := "a", value := 5 }] }]
          bucket_mutexes := [pthread_mutex_t.unlocked] } ∧
    ∃ after, put_all one_bucket (hash_table_v2_create one_bucket)
        [("a", 1), ("b", 2), ("a", 5), ("c", 3)] = Except.ok after ∧
      (all_entries after).length =
        ([(("a" : Key), 1), ("b", 2), ("a", 5), ("c", 3)].map Prod.fst).dedup.length :=
  ⟨by decide, by decide,
    entry_count_is_distinct_keys one_bucket [("a", 1), ("b", 2), ("a", 5), ("c", 3)]
      (by decide)⟩

/-- C18: on every table a program can hold, for keys `A` and `B` that differ,
`put(A, v); put(B, w)` and `put(B, w); put(A, v)` all return and leave two
tables on which contains gives the same truth value and get the same value or
the same failure, for every key; when `A` and `B` fall in different buckets the
two tables are the same. -/
theorem puts_commute (base : hash_table_base) (hash_table : hash_table_v2) (A B : Key)
    (v w : Nat) (hr : Reachable base hash_table) (hc : 0 < base.HASH_TABLE_CAPACITY)
    (hne : A ≠ B) :
    ∃ a ab b ba,
      hash_table_v2_add_entry base hash_table A v = Except.ok a ∧
      hash_table_v2_add_entry base a B w = Except.ok ab ∧
      hash_table_v2_add_entry base hash_table B w = Except.ok b ∧
      hash_table_v2_add_entry base b A v = Except.ok ba ∧
      (∀ key,
        Except.map Prod.fst (hash_table_v2_contains base ab key) =
          Except.map Prod.fst (hash_table_v2_contains base ba key) ∧
        Except.map Prod.fst (hash_table_v2_get_value base ab key) =
          Except.map Prod.fst (hash_table_v2_get_value base ba key)) ∧
      (base.bernstein_hash A % base.HASH_TABLE_CAPACITY ≠
          base.bernstein_hash B % base.HASH_TABLE_CAPACITY →
        ab = ba) := by
  have h0 := Reachable_invariant base hash_table hr
  have hiA := bucket_index_lt base hash_table A h0.1 hc
  have hiB := bucket_index_lt base hash_table B h0.1 hc
  have eA := hash_table_v2_add_entry_eq base hash_table A v h0.1 hc
  have eB := hash_table_v2_add_entry_eq base hash_table B w h0.1 hc
  have hrA := Reachable.add_entry hash_table _ A v hr eA
  have hrB := Reachable.add_entry hash_table _ B w hr eB
  have hA := Reachable_invariant base _ hrA
  have hB := Reachable_invariant base _ hrB
  have eAB := hash_table_v2_add_entry_eq base _ B w hA.1 hc
  have eBA := hash_table_v2_add_entry_eq base _ A v hB.1 hc
  have hAB := Reachable_invariant base _ (Reachable.add_entry _ _ B w hrA eAB)
  have hBA := Reachable_invariant base _ (Reachable.add_entry _ _ A v hrB eBA)
  have hiA2 := bucket_index_lt base _ A hB.1 hc
  have hiB2 := bucket_index_lt base _ B hA.1 hc
  have hlook : ∀ key,
      lookup base (write_list_head (write_list_head hash_table (bucket_index base A)
          (put_chain (chain hash_table (bucket_index base A)) A v)) (bucket_index base B)
          (put_chain (chain (write_list_head hash_table (bucket_index base A)
            (put_chain (chain hash_table (bucket_index base A)) A v)) (bucket_index base B))
            B w)) key =
      lookup base (write_list_head (write_list_head hash_table (bucket_index base B)
          (put_chain (chain hash_table (bucket_index base B)) B w)) (bucket_index base A)
          (put_chain (chain (write_list_head hash_table (bucket_index base B)
            (put_chain (chain hash_table (bucket_index base B)) B w)) (bucket_index base A))
            A v)) key := by
    intro key
    rw [lookup_put _ _ _ _ _ hiB2, lookup_put _ _ _ _ _ hiA, lookup_put _ _ _ _ _ hiA2,
      lookup_put _ _ _ _ _ hiB]
    by_cases hkA : key = A
    · have hkB : ¬ key = B := fun hh => hne (hkA.symm.trans hh)
      rw [if_neg hkB, if_pos hkA, if_pos hkA]
    · rw [if_neg hkA, if_neg hkA]
  refine ⟨_, _, _, _, eA, eAB, eB, eBA, ?_, ?_⟩
  · intro key
    constructor
    · rw [contains_of_lookup base _ key hAB.1 hc, contains_of_lookup base _ key hBA.1 hc,
        hlook key]
      rfl
    · rw [hash_table_v2_get_value_eq base _ key hAB.1 hc,
        hash_table_v2_get_value_eq base _ key hBA.1 hc]
      have := hlook key
      unfold lookup at this
      rw [this]
      cases find_value (chain (write_list_head (write_list_head hash_table
          (bucket_index base B) (put_chain (chain hash_table (bucket_index base B)) B w))
          (bucket_index base A) (put_chain (chain (write_list_head hash_table
          (bucket_index base B) (put_chain (chain hash_table (bucket_index base B)) B w))
          (bucket_index base A)) A v)) (bucket_index base key)) key <;> rfl
  · intro hbuckets
    have hAB' : bucket_index base A ≠ bucket_index base B := hbuckets
    rw [chain_write_list_head _ _ _ _ hiA, if_neg (fun hh => hAB' hh.symm),
      chain_write_list_head _ _ _ _ hiB, if_neg hAB']
    exact write_list_head_comm _ _ _ _ _ hAB'

/-- Witness of C18: "a" and "b" are put in the fresh one-bucket table, where
they collide: the two orders leave the chains ["b", "a"] and ["a", "b"]. -/
theorem puts_commute_witness :
    Reachable one_bucket (hash_table_v2_create one_bucket) ∧
    0 < one_bucket.HASH_TABLE_CAPACITY ∧ ("a" : Key) ≠ "b" ∧
    ∃ a ab b ba,
      hash_table_v2_add_entry one_bucket (hash_table_v2_create one_bucket) "a" 7 =
        Except.ok a ∧
      hash_table_v2_add_entry one_bucket a "b" 8 = Except.ok ab ∧
      hash_table_v2_add_entry one_bucket (hash_table_v2_create one_bucket) "b" 8 =
        Except.ok b ∧
      hash_table_v2_add_entry one_bucket b "a" 7 = Except.ok ba ∧
      (∀ key,
        Except.map Prod.fst (hash_table_v2_contains one_bucket ab key) =
          Except.map Prod.fst (hash_table_v2_contains one_bucket ba key) ∧
        Except.map Prod.fst (hash_table_v2_get_value one_bucket ab key) =
          Except.map Prod.fst (hash_table_v2_get_value one_bucket ba key)) ∧
      (one_bucket.bernstein_hash "a" % one_bucket.HASH_TABLE_CAPACITY ≠
          one_bucket.bernstein_hash "b" % one_bucket.HASH_TABLE_CAPACITY →
        ab = ba) :=
  ⟨Reachable.create, by decide, by decide,
    puts_commute one_bucket (hash_table_v2_create one_bucket) "a" "b" 7 8 Reachable.create
      (by decide) (by decide)⟩

/-- C19: with a positive capacity, for every key and every value of the hash,
the index `hash(key) mod HASH_TABLE_CAPACITY` that `get_hash_table_entry`
computes is below the number of buckets of a table with `HASH_TABLE_CAPACITY`
buckets and mutexes: there is a bucket and a mutex at the index, and on a table
a program can hold none of contains, put and get ends in undefined behaviour. -/
theorem bucket_index_in_bounds (base : hash_table_base) (hash_table : hash_table_v2)
    (key : Key) (value : Nat) (hc : 0 < base.HASH_TABLE_CAPACITY)
    (hentries : hash_table.entries.length = base.HASH_TABLE_CAPACITY)
    (hmutexes : hash_table.bucket_mutexes.length = base.HASH_TABLE_CAPACITY) :
    base.bernstein_hash key % base.HASH_TABLE_CAPACITY < hash_table.entries.length ∧
    get_hash_table_entry base hash_table key =
      Except.ok (base.bernstein_hash key % base.HASH_TABLE_CAPACITY) ∧
    (∃ list_head,
      read_list_head hash_table (base.bernstein_hash key % base.HASH_TABLE_CAPACITY) =
        Except.ok list_head) ∧
    (∃ mutex,
      hash_table.bucket_mutexes[base.bernstein_hash key % base.HASH_TABLE_CAPACITY]? =
        some mutex) ∧
    (Reachable base hash_table →
      hash_table_v2_contains base hash_table key ≠
        Except.error Fault.undefined_behaviour ∧
      hash_table_v2_add_entry base hash_table key value ≠
        Except.error Fault.undefined_behaviour ∧
      hash_table_v2_get_value base hash_table key ≠
        Except.error Fault.undefined_behaviour) := by
  have hlt : base.bernstein_hash key % base.HASH_TABLE_CAPACITY < base.HASH_TABLE_CAPACITY :=
    Nat.mod_lt _ hc
  have hne : base.HASH_TABLE_CAPACITY ≠ 0 := Nat.pos_iff_ne_zero.mp hc
  have hi : base.bernstein_hash key % base.HASH_TABLE_CAPACITY < hash_table.entries.length := by
    rw [hentries]; exact hlt
  have hm : base.bernstein_hash key % base.HASH_TABLE_CAPACITY <
      hash_table.bucket_mutexes.length := by
    rw [hmutexes]; exact hlt
  refine ⟨hi, ?_, ?_, ?_, ?_⟩
  · simp [get_hash_table_entry, hne, hi]
  · refine ⟨(hash_table.entries.get ⟨_, hi⟩).list_head, ?_⟩
    simp [read_list_head, hi]
  · exact ⟨_, List.getElem?_eq_getElem hm⟩
  · intro hr
    have h0 := Reachable_invariant base hash_table hr
    refine ⟨?_, ?_, ?_⟩
    · rw [hash_table_v2_contains_eq base hash_table key h0.1 hc]
      exact fun hh => Except.noConfusion hh
    · rw [hash_table_v2_add_entry_eq base hash_table key value h0.1 hc]
      exact fun hh => Except.noConfusion hh
    · rw [hash_table_v2_get_value_eq base hash_table key h0.1 hc]
      cases find_value (chain hash_table (bucket_index base key)) key with
      | none =>
        intro hh
        cases hh
      | some found => exact fun hh => Except.noConfusion hh

/-- Witness of C19: the key "dddd", of hash 4, on the table of three buckets:
the index is 1. -/
theorem bucket_index_in_bounds_witness :
    0 < three_buckets.HASH_TABLE_CAPACITY ∧
    table_a_bb.entries.length = three_buckets.HASH_TABLE_CAPACITY ∧
    table_a_bb.bucket_mutexes.length = three_buckets.HASH_TABLE_CAPACITY ∧
    three_buckets.bernstein_hash "dddd" % three_buckets.HASH_TABLE_CAPACITY = 1 ∧
    (three_buckets.bernstein_hash "dddd" % three_buckets.HASH_TABLE_CAPACITY <
        table_a_bb.entries.length ∧
      get_hash_table_entry three_buckets table_a_bb "dddd" =
        Except.ok (three_buckets.bernstein_hash "dddd" % three_buckets.HASH_TABLE_CAPACITY) ∧
      (∃ list_head,
        read_list_head table_a_bb
          (three_buckets.bernstein_hash "dddd" % three_buckets.HASH_TABLE_CAPACITY) =
          Except.ok list_head) ∧
      (∃ mutex,
        table_a_bb.bucket_mutexes[three_buckets.bernstein_hash "dddd" %
          three_buckets.HASH_TABLE_CAPACITY]? = some mutex) ∧
      (Reachable three_buckets table_a_bb →
        hash_table_v2_contains three_buckets table_a_bb "dddd" ≠
          Except.error Fault.undefined_behaviour ∧
        hash_table_v2_add_entry three_buckets table_a_bb "dddd" 4 ≠
          Except.error Fault.undefined_behaviour ∧
        hash_table_v2_get_value three_buckets table_a_bb "dddd" ≠
          Except.error Fault.undefined_behaviour)) :=
  ⟨by decide, by decide, by decide, by decide,
    bucket_index_in_bounds three_buckets table_a_bb "dddd" 4 (by decide) (by decide)
      (by decide)⟩

end HashTableV2
